import Mathlib

/-!
The environment translator and the process runner of prometheus-am-executor.

A shallow embedding of `main.go`: `timeToStr`, `amDataToEnv`, `runner.run`
and `handleWebhook`, with the facts the specification states about them.

Go strings are embedded as `String`, Go maps as association lists together
with an explicit traversal order for every `range` statement, and the
metrics, the log and the HTTP response as explicit state.
-/

namespace AmExecutor

/-! ## Data model (`template.Data`, `template.Alert`, `time.Time`) -/

/-- A Go `map[string]string` (`template.KV`), as the list of its entries. The keys of a Go map
are pairwise distinct, see `GoMap.WF`. -/
abbrev GoMap := List (String × String)

/-- The keys of a Go map are pairwise distinct. -/
def GoMap.WF (m : GoMap) : Prop := (m.map Prod.fst).Nodup

/-- The order in which one `range` statement over a Go map yields the entries: every entry
once, in an order the language leaves unspecified. -/
structure Traversal (α : Type) where
  order : List α → List α
  perm : ∀ l, (order l).Perm l

/-- The traversal orders of the `range` statements over maps in one call of `amDataToEnv`:
the map literal of line 133 and the map it yields for each key, and for the alert at
(0-based) index `i` the map literal of line 151 and the map it yields for each key. -/
structure Sched where
  groupOuter : Traversal (String × GoMap)
  groupInner : String → Traversal (String × String)
  alertOuter : Nat → Traversal (String × GoMap)
  alertInner : Nat → String → Traversal (String × String)

/-- A `time.Time`, by what `IsZero` and `Unix` read of it: the seconds since January 1 of
year 1 (an `int64`) and the nanoseconds within the second. -/
structure Time where
  sec : Int
  nsec : Nat
deriving DecidableEq, Repr

/-- Signed wrap-around of an integer into `w` bits. -/
def wrapInt (w : Nat) (x : Int) : Int :=
  (x + 2 ^ (w - 1)) % 2 ^ w - 2 ^ (w - 1)

/-- The seconds from January 1 of year 1 to January 1 of 1970 (`unixToInternal` of
package `time`). -/
def unixToInternal : Int := 62135596800

/-- `Time.IsZero` of package `time`: the instant January 1, year 1, 00:00:00 UTC. -/
def Time.IsZero (t : Time) : Bool := t.sec == 0 && t.nsec == 0

/-- `Time.Unix` of package `time`: the seconds since January 1 of 1970, in `int64`
arithmetic. -/
def Time.Unix (t : Time) : Int := wrapInt 64 (t.sec - unixToInternal)

/-- The `time.Time` of a Unix epoch second (`time.Unix(s, 0)`). -/
def Time.ofUnix (s : Int) : Time := ⟨s + unixToInternal, 0⟩

/-- The zero value of `time.Time`. -/
def Time.zero : Time := ⟨0, 0⟩

/-- A `template.Alert`. -/
structure Alert where
  Status : String
  Labels : GoMap
  Annotations : GoMap
  StartsAt : Time
  EndsAt : Time
  GeneratorURL : String

/-- A `template.Data`, the alert group of one webhook delivery. -/
structure Data where
  Receiver : String
  Status : String
  Alerts : List Alert
  GroupLabels : GoMap
  CommonLabels : GoMap
  CommonAnnotations : GoMap
  ExternalURL : String

/-- The value `&template.Data{}` that `handleWebhook` decodes into. -/
def Data.empty : Data := ⟨"", "", [], [], [], [], ""⟩

/-! ## `strconv.Itoa`, `timeToStr` -/

/-- `strconv.Itoa`: the decimal rendering of an integer, with a leading `-` when negative. -/
def itoa (i : Int) : String :=
  match i with
  | Int.ofNat n => Nat.repr n
  | Int.negSucc n => "-" ++ Nat.repr (n + 1)

/-- The conversion `int(x)` of an `int64` (`int` has 64 bits). -/
def toInt (x : Int) : Int := wrapInt 64 x

/-- `timeToStr` (main.go, 119-124). -/
def timeToStr (t : Time) : String :=
  if t.IsZero then
    "0"
  else
    itoa (toInt t.Unix)

/-! ## `strconv.Atoi` -/

/-- The value of a sequence of decimal digits. -/
def decValue (cs : List Char) : Nat :=
  cs.foldl (fun n c => 10 * n + (c.toNat - '0'.toNat)) 0

/-- The unsigned part of a decimal numeral: at least one character, decimal digits only. -/
def parseDigits (cs : List Char) : Option Nat :=
  if cs ≠ [] ∧ cs.all Char.isDigit = true then some (decValue cs) else none

/-- The range check of `strconv.Atoi`: the value fits an `int`. -/
def inIntRange (v : Int) : Option Int :=
  if -2 ^ 63 ≤ v ∧ v < 2 ^ 63 then some v else none

/-- `strconv.Atoi`: parse a string as a decimal integer (an optional sign, then digits);
`none` is the error result. -/
def atoi (s : String) : Option Int :=
  match s.data with
  | [] => none
  | c :: cs =>
    if c = '-' then (parseDigits cs).bind (fun n => inIntRange (-(n : Int)))
    else if c = '+' then (parseDigits cs).bind (fun n => inIntRange (n : Int))
    else (parseDigits (c :: cs)).bind (fun n => inIntRange (n : Int))

/-! ## `amDataToEnv` -/

/-- The inner loop of lines 138-140: `env = append(env, p+"_"+k+"="+v)` for each entry
yielded by the traversal of `m`. -/
def rangeGroupMap (t : Traversal (String × String)) (p : String) (m : GoMap)
    (env : List String) : List String :=
  (t.order m).foldl (fun env kv => env ++ [p ++ "_" ++ kv.1 ++ "=" ++ kv.2]) env

/-- The loop of lines 133-141 over the map literal of the three group-level maps. -/
def rangeGroup (s : Sched) (td : Data) (env : List String) : List String :=
  (s.groupOuter.order
      [("AMX_LABEL", td.CommonLabels),
       ("AMX_GLABEL", td.GroupLabels),
       ("AMX_ANNOTATION", td.CommonAnnotations)]).foldl
    (fun env pm => rangeGroupMap (s.groupInner pm.1) pm.1 pm.2 env) env

/-- The inner loop of lines 155-157: `env = append(env, key+"_"+p+"_"+k+"="+v)`. -/
def rangeAlertMap (t : Traversal (String × String)) (key p : String) (m : GoMap)
    (env : List String) : List String :=
  (t.order m).foldl (fun env kv => env ++ [key ++ "_" ++ p ++ "_" ++ kv.1 ++ "=" ++ kv.2]) env

/-- The body of the loop over the alerts (lines 144-158), for the alert at index `i`. -/
def alertStep (s : Sched) (env : List String) (i : Nat) (alert : Alert) : List String :=
  let key := "AMX_ALERT_" ++ itoa (Int.ofNat i + 1)
  let env := env ++
    [key ++ "_STATUS" ++ "=" ++ alert.Status,
     key ++ "_START" ++ "=" ++ timeToStr alert.StartsAt,
     key ++ "_END" ++ "=" ++ timeToStr alert.EndsAt,
     key ++ "_URL" ++ "=" ++ alert.GeneratorURL]
  ((s.alertOuter i).order
      [("LABEL", alert.Labels),
       ("ANNOTATION", alert.Annotations)]).foldl
    (fun env pm => rangeAlertMap (s.alertInner i pm.1) key pm.1 pm.2 env) env

/-- The loop of lines 143-159 over `td.Alerts`, from index `i` on. -/
def rangeAlerts (s : Sched) : Nat → List Alert → List String → List String
  | _, [], env => env
  | i, alert :: rest, env => rangeAlerts s (i + 1) rest (alertStep s env i alert)

/-- `amDataToEnv` (main.go, 126-161). -/
def amDataToEnv (s : Sched) (td : Data) : List String :=
  let env :=
    ["AMX_RECEIVER=" ++ td.Receiver,
     "AMX_STATUS=" ++ td.Status,
     "AMX_EXTERNAL_URL=" ++ td.ExternalURL,
     "AMX_ALERT_LEN=" ++ itoa (Int.ofNat td.Alerts.length)]
  let env := rangeGroup s td env
  rangeAlerts s 0 td.Alerts env

/-! ## Two traversal orders -/

/-- The traversal that yields the entries in the order they are listed. -/
def Traversal.listed (α : Type) : Traversal α := ⟨id, fun l => List.Perm.refl l⟩

/-- The traversal that yields the entries in the opposite order. -/
def Traversal.reversed (α : Type) : Traversal α := ⟨List.reverse, fun l => List.reverse_perm l⟩

/-- Every `range` yields the entries as listed. -/
def Sched.listed : Sched :=
  ⟨Traversal.listed _, fun _ => Traversal.listed _, fun _ => Traversal.listed _,
   fun _ _ => Traversal.listed _⟩

/-- Every `range` yields the entries in the opposite order. -/
def Sched.reversed : Sched :=
  ⟨Traversal.reversed _, fun _ => Traversal.reversed _, fun _ => Traversal.reversed _,
   fun _ _ => Traversal.reversed _⟩

/-! ## The reference list of the specification -/

/-- The entries `pre_K=v` of one mapping, one per entry of the mapping, as listed. -/
def mapEntries (pre : String) (m : GoMap) : List String :=
  m.map (fun kv => pre ++ "_" ++ kv.1 ++ "=" ++ kv.2)

/-- The four scalar entries of the group. -/
def groupScalars (td : Data) : List String :=
  ["AMX_RECEIVER=" ++ td.Receiver,
   "AMX_STATUS=" ++ td.Status,
   "AMX_EXTERNAL_URL=" ++ td.ExternalURL,
   "AMX_ALERT_LEN=" ++ Nat.repr td.Alerts.length]

/-- The name stem `AMX_ALERT_i` of the alert at 1-based position `i`. -/
def alertKey (i : Nat) : String := "AMX_ALERT_" ++ Nat.repr i

/-- The four scalar entries of the alert at 1-based position `i`. -/
def alertScalars (i : Nat) (a : Alert) : List String :=
  [alertKey i ++ "_STATUS=" ++ a.Status,
   alertKey i ++ "_START=" ++ timeToStr a.StartsAt,
   alertKey i ++ "_END=" ++ timeToStr a.EndsAt,
   alertKey i ++ "_URL=" ++ a.GeneratorURL]

/-- The entries of the alert at 1-based position `i`: scalars, labels, annotations. -/
def alertRef (i : Nat) (a : Alert) : List String :=
  alertScalars i a ++ mapEntries (alertKey i ++ "_LABEL") a.Labels
    ++ mapEntries (alertKey i ++ "_ANNOTATION") a.Annotations

/-- The entries of the alerts `as`, the first of them at 1-based position `i`. -/
def alertsRef : Nat → List Alert → List String
  | _, [] => []
  | i, a :: rest => alertRef i a ++ alertsRef (i + 1) rest

/-- The reference list of the specification for an alert group. -/
def referenceEnv (td : Data) : List String :=
  groupScalars td ++ mapEntries "AMX_LABEL" td.CommonLabels
    ++ mapEntries "AMX_GLABEL" td.GroupLabels
    ++ mapEntries "AMX_ANNOTATION" td.CommonAnnotations
    ++ alertsRef 1 td.Alerts

/-! ## Entries: beginnings, variable names, blocks -/

/-- The entry `e` starts with `p`. -/
def startsWith (p e : String) : Prop := p.data <+: e.data

instance (p e : String) : Decidable (startsWith p e) := by
  unfold startsWith; infer_instance

/-- The variable name of an entry: the text before the first `=`. -/
def varName (e : String) : String := ⟨e.data.takeWhile (fun c => c != '=')⟩

/-- Two texts clash: neither is the beginning of the other. -/
def Clash (a b : List Char) : Prop := ¬ a <+: b ∧ ¬ b <+: a

instance (a b : List Char) : Decidable (Clash a b) := by
  unfold Clash; infer_instance

/-- The beginnings of the names of the group-level entries. -/
def groupTags : List String :=
  ["AMX_RECEIVER", "AMX_STATUS", "AMX_EXTERNAL_URL", "AMX_ALERT_LEN",
   "AMX_LABEL_", "AMX_GLABEL_", "AMX_ANNOTATION_"]

/-- What follows `AMX_ALERT_i_` in the entries of an alert. -/
def subTags : List String :=
  ["STATUS=", "START=", "END=", "URL=", "LABEL_", "ANNOTATION_"]

/-- The entries the group-level loop appends: one block per yielded map. -/
def groupBlocks (s : Sched) (td : Data) : List (List String) :=
  (s.groupOuter.order
      [("AMX_LABEL", td.CommonLabels),
       ("AMX_GLABEL", td.GroupLabels),
       ("AMX_ANNOTATION", td.CommonAnnotations)]).map
    (fun pm => mapEntries pm.1 ((s.groupInner pm.1).order pm.2))

/-- The blocks of mapping entries the loop body appends for the alert at index `i`. -/
def alertBlocks (s : Sched) (i : Nat) (alert : Alert) : List (List String) :=
  ((s.alertOuter i).order
      [("LABEL", alert.Labels),
       ("ANNOTATION", alert.Annotations)]).map
    (fun pm => mapEntries (alertKey (i + 1) ++ "_" ++ pm.1) ((s.alertInner i pm.1).order pm.2))

/-- The entries the loop over the alerts appends, the first alert at index `i`. -/
def alertsOut (s : Sched) : Nat → List Alert → List String
  | _, [] => []
  | i, a :: rest =>
    (alertScalars (i + 1) a ++ (alertBlocks s i a).flatten) ++ alertsOut s (i + 1) rest

/-- The group-level entries of the output: `env` as it stands after line 141, before the loop
over the alerts. -/
def groupPart (s : Sched) (td : Data) : List String :=
  rangeGroup s td
    ["AMX_RECEIVER=" ++ td.Receiver,
     "AMX_STATUS=" ++ td.Status,
     "AMX_EXTERNAL_URL=" ++ td.ExternalURL,
     "AMX_ALERT_LEN=" ++ itoa (Int.ofNat td.Alerts.length)]

/-- The entries of the alert at index `i`: what the body of the loop over the alerts appends
to `env` in iteration `i`. -/
def alertPart (s : Sched) (i : Nat) (a : Alert) : List String :=
  alertStep s [] i a

/-! ## Mappings, block orders and example groups -/

/-- The first example scenario of the specification: one firing alert with one label. -/
def exampleAlert : Alert :=
  ⟨"firing", [("severity", "critical")], [], Time.zero, Time.zero, ""⟩

/-- The alert group of the first example scenario of the specification. -/
def exampleGroup : Data := ⟨"team-x", "firing", [exampleAlert], [], [], [], ""⟩

/-- The entry produced for one entry `kv` of a mapping whose names begin with `pre_`. -/
def entryOf (pre : String) (kv : String × String) : String :=
  pre ++ "_" ++ kv.1 ++ "=" ++ kv.2

/-- The mappings of the alerts, the first alert at 1-based position `i`, each with the stem
of the names of its entries. -/
def alertMappings : Nat → List Alert → List (String × GoMap)
  | _, [] => []
  | i, a :: rest =>
    (alertKey i ++ "_LABEL", a.Labels) :: (alertKey i ++ "_ANNOTATION", a.Annotations)
      :: alertMappings (i + 1) rest

/-- All mappings of an alert group, each with the stem of the names of its entries. -/
def mappings (td : Data) : List (String × GoMap) :=
  [("AMX_LABEL", td.CommonLabels), ("AMX_GLABEL", td.GroupLabels),
   ("AMX_ANNOTATION", td.CommonAnnotations)] ++ alertMappings 1 td.Alerts

/-- Two distinct keys of one mapping never collide: the entries produced for them are
different strings with different variable names. -/
def NoKeyCollision (td : Data) : Prop :=
  ∀ pm ∈ mappings td, ∀ kv1 ∈ pm.2, ∀ kv2 ∈ pm.2, kv1.1 ≠ kv2.1 →
    entryOf pm.1 kv1 ≠ entryOf pm.1 kv2
      ∧ varName (entryOf pm.1 kv1) ≠ varName (entryOf pm.1 kv2)

/-- An alert group with two distinct common labels, `a` and `a=b`. -/
def collidingGroup : Data := ⟨"", "", [], [], [("a", "b=c"), ("a=b", "c")], [], ""⟩

/-- The list `out` is the concatenation of one block per item, the blocks in the order of the
items, and the block of an item is a permutation of its reference entries. -/
def BlocksInOrder {α : Type} (ref : α → List String) (items : List α) (out : List String) :
    Prop :=
  ∃ blocks : List (List String),
    List.Forall₂ (fun b x => b.Perm (ref x)) blocks items ∧ out = blocks.flatten

/-- The order of entries with the three group-level blocks in the fixed order label,
group label, annotation. -/
def FixedBlockOrder (td : Data) (out : List String) : Prop :=
  ∃ g al, out = groupScalars td ++ g ++ al
    ∧ BlocksInOrder (fun pm => mapEntries pm.1 pm.2)
        [("AMX_LABEL", td.CommonLabels), ("AMX_GLABEL", td.GroupLabels),
         ("AMX_ANNOTATION", td.CommonAnnotations)] g
    ∧ BlocksInOrder (fun ia => alertRef ia.1 ia.2) (td.Alerts.enumFrom 1) al

/-- The order of entries with the three group-level blocks in some order. -/
def SomeBlockOrder (td : Data) (out : List String) : Prop :=
  ∃ g al, out = groupScalars td ++ g ++ al
    ∧ (∃ ord : List (String × GoMap),
        ord.Perm [("AMX_LABEL", td.CommonLabels), ("AMX_GLABEL", td.GroupLabels),
          ("AMX_ANNOTATION", td.CommonAnnotations)]
        ∧ BlocksInOrder (fun pm => mapEntries pm.1 pm.2) ord g)
    ∧ BlocksInOrder (fun ia => alertRef ia.1 ia.2) (td.Alerts.enumFrom 1) al

/-- An alert group with one common label and one group label. -/
def twoBlockGroup : Data := ⟨"", "", [], [("b", "2")], [("a", "1")], [], ""⟩

/-! ## The metrics, the log, the response and the child process as explicit state -/

/-- What the handler and the runner do to the outside, in the order they do it. -/
inductive Event
  /-- A call of the logger (`log.Debug`, `log.Info`, `log.Error`) with its message. -/
  | log (level : String) (msg : String)
  /-- The call `http.Error(w, msg, code)`, which answers the request with a failure. -/
  | httpError (msg : String) (code : Nat)
  /-- The call `processesCurrent.Inc()`. -/
  | gaugeInc
  /-- The call `processesCurrent.Dec()`. -/
  | gaugeDec
  /-- The call `errCounter.WithLabelValues(stage)`. -/
  | counterChild (stage : String)
  /-- The call `cmd.Run()` of the command with its arguments and environment: the attempt
  to spawn the process. -/
  | spawn (command : String) (args : List String) (env : List String)
deriving DecidableEq, Repr

/-- What becomes of the child process of one `cmd.Run()`. -/
inductive ProcResult
  /-- The process could not be started (for example, no such executable). -/
  | startFailed (err : String)
  /-- The process started, wrote `output` (chunk by chunk) and terminated with exit status
  `status`. -/
  | exited (output : List String) (status : Nat)
  /-- The process started and wrote `output`, and waiting for it or copying its output
  failed. -/
  | waitFailed (output : List String) (err : String)
deriving DecidableEq, Repr

/-- The chunks the child process wrote to its standard output and standard error. -/
def ProcResult.output : ProcResult → List String
  | .startFailed _ => []
  | .exited output _ => output
  | .waitFailed output _ => output

/-- The error `cmd.Run()` returns (`none` is `nil`), as package `os/exec` documents it: `nil`
if the command runs and exits with a zero exit status, an `*ExitError` if the command starts
but does not complete successfully, other errors otherwise. -/
def cmdRun : ProcResult → Option String
  | .startFailed err => some err
  | .exited _ 0 => none
  | .exited _ (n + 1) => some ("exit status " ++ Nat.repr (n + 1))
  | .waitFailed _ err => some err

/-- The state outside the handler: whether the log file can be opened, the ambient
environment `os.Environ()`, the gauge `processesCurrent` (its `float64` holds a whole number
of processes, embedded as an integer), the children of the counter vector `errCounter` by
stage label, the events so far, and a record of the gauge: each call of `Inc()` and
`Dec()` and each attempt to spawn, paired with the value the gauge has right after it. The
code does not read the record. -/
structure World where
  logWritable : Bool
  environ : List String
  processesCurrent : Int
  errCounter : List (String × Nat)
  trace : List Event
  gaugeLog : List (Event × Int)
deriving DecidableEq, Repr

/-- How a request ends when the handler does not return. -/
inductive Abort
  /-- The process terminated itself with `os.Exit(code)`. -/
  | osExit (code : Nat)
  /-- A nil pointer was dereferenced. -/
  | nilDeref
deriving DecidableEq, Repr

/-- The sum of all children of `errCounter`. -/
def World.errTotal (w : World) : Nat := (w.errCounter.map Prod.snd).sum

/-- A call of the logger. -/
def logCall (level msg : String) (w : World) : World :=
  { w with trace := w.trace ++ [Event.log level msg] }

/-- `setLogPath` (main.go, 165-175): open the log file of the day, or log the failure and
`os.Exit(1)`. -/
def setLogPath (w : World) : Except Abort World :=
  if w.logWritable then
    .ok w
  else
    .error (Abort.osExit 1)

/-- `handleError` (main.go, 50-54). -/
def handleError (err : String) (w : World) : Except Abort World := do
  let w ← setLogPath w
  let w := { w with trace := w.trace ++ [Event.httpError err 500] }
  pure (logCall "error" err w)

/-- `errCounter.WithLabelValues(stage)`: the child counter of the label is looked up, and
created with value 0 when it does not exist yet; the returned counter is not used. -/
def withLabelValues (stage : String) (w : World) : World :=
  { w with
    errCounter :=
      if stage ∈ w.errCounter.map Prod.fst then w.errCounter else w.errCounter ++ [(stage, 0)]
    trace := w.trace ++ [Event.counterChild stage] }

/-- `logWriter.Write` (main.go, 96-100), called for each chunk of output of the child. -/
def logWriter.Write (w : World) (p : String) : Except Abort World := do
  let w ← setLogPath w
  pure (logCall "debug" p w)

/-- An event on or under the gauge happens: it joins the events so far, and the record of the
gauge notes it with the value the gauge has then. -/
def observe (e : Event) (w : World) : World :=
  { w with trace := w.trace ++ [e], gaugeLog := w.gaugeLog ++ [(e, w.processesCurrent)] }

/-- The `runner` (main.go, 102-106). -/
structure runner where
  command : String
  args : List String
deriving DecidableEq, Repr

/-- `runner.run` (main.go, 108-117) with the child process behaving as `proc`: the result is
the state afterwards and the error returned (`none` is `nil`). The deferred
`processesCurrent.Dec()` runs when `cmd.Run()` has returned. -/
def runner.run (r : runner) (proc : ProcResult) (env : List String) (w : World) :
    Except Abort (World × Option String) := do
  let w := observe Event.gaugeInc { w with processesCurrent := w.processesCurrent + 1 }
  let w := observe (Event.spawn r.command r.args (w.environ ++ env)) w
  let w ← proc.output.foldlM logWriter.Write w
  let err := cmdRun proc
  let w := observe Event.gaugeDec { w with processesCurrent := w.processesCurrent - 1 }
  pure (w, err)

/-- A sequence of calls of `runner.run`, each completed before the next. -/
def runner.runAll (r : runner) : List (ProcResult × List String) → World → Except Abort World
  | [], w => .ok w
  | (proc, env) :: rest, w => do
    let (w, _) ← r.run proc env w
    r.runAll rest w

/-- The flags and globals the handler reads: `*verbose` and `rnr`. -/
structure Config where
  verbose : Bool
  rnr : runner

/-- What the outside answers during one request: the result of `ioutil.ReadAll(req.Body)`;
for `json.Unmarshal(data, &payload)` the pointer `payload` afterwards (`none` is `nil`) and
the error returned (`none` is `nil`); the traversal orders of the maps; and what becomes of
the child process started with a given environment. -/
structure Request where
  readAll : Except String String
  unmarshal : String → Option Data × Option String
  sched : Sched
  proc : List String → ProcResult

/-- `handleWebhook` (main.go, 56-88). -/
def handleWebhook (cfg : Config) (req : Request) (w : World) : Except Abort World := do
  let w ← setLogPath w
  let w := if cfg.verbose then logCall "debug" "Webhook triggered" w else w
  match req.readAll with
  | .error err =>
    let w ← handleError err w
    let w := withLabelValues "read" w
    pure w
  | .ok data =>
    let w := if cfg.verbose then logCall "debug" "got data" w else w
    let (payload, uerr) := req.unmarshal data
    let w ← match uerr with
      | some err => do
        let w ← handleError err w
        pure (withLabelValues "unmarshal" w)
      | none => pure w
    let w := if cfg.verbose then logCall "info" "got payload" w else w
    match payload with
    | none => .error Abort.nilDeref
    | some td =>
      let env := amDataToEnv req.sched td
      let (w, rerr) ← cfg.rnr.run (req.proc env) env w
      match rerr with
      | some err => do
        let w ← handleError err w
        pure (withLabelValues "start" w)
      | none => pure w

/-! ## Example requests -/

/-- The state before the first request: the log file can be opened, no ambient
environment, no process running, no error counted. -/
def World.init : World := ⟨true, [], 0, [], [], []⟩

/-- The configuration `prometheus-am-executor handler`. -/
def Config.sample : Config := ⟨false, ⟨"handler", []⟩⟩

/-- A request whose body `not json` is no JSON text: `json.Unmarshal` returns a syntax error
and leaves `payload` as it was; the command, once started, exits with status 0. -/
def Request.undecodable : Request :=
  ⟨.ok "not json",
   fun _ => (some Data.empty, some "invalid character 'o' in literal null (expecting 'u')"),
   Sched.listed, fun _ => ProcResult.exited [] 0⟩

/-- A request whose body cannot be read. -/
def Request.unreadable : Request :=
  ⟨.error "unexpected EOF", fun _ => (some Data.empty, none), Sched.listed,
   fun _ => ProcResult.exited [] 0⟩

/-- A request with the alert group of the example, for which the command behaves as
`proc`. -/
def Request.good (proc : ProcResult) : Request :=
  ⟨.ok "", fun _ => (some exampleGroup, none), Sched.listed, fun _ => proc⟩

/-- The events of a request that returned. -/
def traceOf (r : Except Abort World) : Option (List Event) :=
  match r with
  | .ok w => some w.trace
  | .error _ => none

/-- The children of `errCounter` after a request that returned. -/
def countersOf (r : Except Abort World) : Option (List (String × Nat)) :=
  match r with
  | .ok w => some w.errCounter
  | .error _ => none

/-- What one call of `runner.run` adds to the record of the gauge when the gauge is at `g`
before the call: the increment to `g + 1`, the attempt to spawn with the gauge at `g + 1`,
the decrement back to `g`. -/
def gaugeRecord (r : runner) (environ env : List String) (g : Int) : List (Event × Int) :=
  [(Event.gaugeInc, g + 1), (Event.spawn r.command r.args (environ ++ env), g + 1),
   (Event.gaugeDec, g)]

/-- The state after a call of `runner.run` that returns. -/
def runner.after (r : runner) (proc : ProcResult) (env : List String) (w : World) : World :=
  { w with trace := w.trace ++ [Event.gaugeInc, Event.spawn r.command r.args (w.environ ++ env)]
      ++ proc.output.map (Event.log "debug") ++ [Event.gaugeDec]
           gaugeLog := w.gaugeLog ++ gaugeRecord r w.environ env w.processesCurrent }

/-- The error a call of `runner.run` returned (`some none` is `nil`), `none` when the call
did not return. -/
def returnedError (r : Except Abort (World × Option String)) : Option (Option String) :=
  match r with
  | .ok (_, err) => some err
  | .error _ => none

/-! ## The loops of `amDataToEnv` as lists of appended entries -/

theorem itoa_ofNat (n : Nat) : itoa (Int.ofNat n) = Nat.repr n := rfl

theorem itoa_succ (i : Nat) : itoa (Int.ofNat i + 1) = Nat.repr (i + 1) := rfl

theorem foldl_append_singleton {α β : Type} (f : α → β) (l : List α) (env : List β) :
    l.foldl (fun env x => env ++ [f x]) env = env ++ l.map f := by
  induction l generalizing env with
  | nil => simp
  | cons x xs ih => simp [ih]

theorem foldl_append_block {α β : Type} (g : α → List β → List β) (b : α → List β)
    (hg : ∀ x env, g x env = env ++ b x) (l : List α) (env : List β) :
    l.foldl (fun env x => g x env) env = env ++ (l.map b).flatten := by
  induction l generalizing env with
  | nil => simp
  | cons x xs ih => rw [List.foldl_cons, hg, ih]; simp

theorem rangeGroupMap_eq (t : Traversal (String × String)) (p : String) (m : GoMap)
    (env : List String) :
    rangeGroupMap t p m env = env ++ mapEntries p (t.order m) := by
  unfold rangeGroupMap mapEntries
  exact foldl_append_singleton _ _ _

theorem rangeAlertMap_eq (t : Traversal (String × String)) (key p : String) (m : GoMap)
    (env : List String) :
    rangeAlertMap t key p m env = env ++ mapEntries (key ++ "_" ++ p) (t.order m) := by
  unfold rangeAlertMap mapEntries
  exact foldl_append_singleton _ _ _

theorem rangeGroup_eq (s : Sched) (td : Data) (env : List String) :
    rangeGroup s td env = env ++ (groupBlocks s td).flatten := by
  unfold rangeGroup groupBlocks
  exact foldl_append_block
    (fun (pm : String × GoMap) env => rangeGroupMap (s.groupInner pm.1) pm.1 pm.2 env) _
    (fun pm env => rangeGroupMap_eq _ _ _ _) _ _

theorem alertScalars_eq (i : Nat) (a : Alert) :
    alertScalars i a =
      [alertKey i ++ "_STATUS" ++ "=" ++ a.Status,
       alertKey i ++ "_START" ++ "=" ++ timeToStr a.StartsAt,
       alertKey i ++ "_END" ++ "=" ++ timeToStr a.EndsAt,
       alertKey i ++ "_URL" ++ "=" ++ a.GeneratorURL] := by
  have h1 : "_STATUS" ++ "=" = "_STATUS=" := by decide
  have h2 : "_START" ++ "=" = "_START=" := by decide
  have h3 : "_END" ++ "=" = "_END=" := by decide
  have h4 : "_URL" ++ "=" = "_URL=" := by decide
  simp only [alertScalars, String.append_assoc]
  rw [← String.append_assoc "_STATUS", ← String.append_assoc "_START",
    ← String.append_assoc "_END", ← String.append_assoc "_URL", h1, h2, h3, h4]

theorem alertStep_eq (s : Sched) (env : List String) (i : Nat) (alert : Alert) :
    alertStep s env i alert
      = env ++ (alertScalars (i + 1) alert ++ (alertBlocks s i alert).flatten) := by
  unfold alertStep alertBlocks
  simp only [itoa_succ]
  rw [alertScalars_eq, ← List.append_assoc]
  exact foldl_append_block
    (fun (pm : String × GoMap) env =>
      rangeAlertMap (s.alertInner i pm.1) (alertKey (i + 1)) pm.1 pm.2 env) _
    (fun pm env => rangeAlertMap_eq _ _ _ _ _) _ _

theorem rangeAlerts_eq (s : Sched) (i : Nat) (alerts : List Alert) (env : List String) :
    rangeAlerts s i alerts env = env ++ alertsOut s i alerts := by
  induction alerts generalizing i env with
  | nil => simp [rangeAlerts, alertsOut]
  | cons a rest ih => simp [rangeAlerts, alertsOut, ih, alertStep_eq]

/-- The output of `amDataToEnv`, block by block. -/
theorem amDataToEnv_eq (s : Sched) (td : Data) :
    amDataToEnv s td
      = groupScalars td ++ (groupBlocks s td).flatten ++ alertsOut s 0 td.Alerts := by
  unfold amDataToEnv
  simp only [rangeAlerts_eq, rangeGroup_eq, itoa_ofNat]
  rfl

/-! ## Every traversal order gives a permutation of the reference list -/

theorem mapEntries_order_perm (t : Traversal (String × String)) (pre : String) (m : GoMap) :
    (mapEntries pre (t.order m)).Perm (mapEntries pre m) :=
  (t.perm m).map _

theorem groupBlocks_perm (s : Sched) (td : Data) :
    (groupBlocks s td).flatten.Perm
      (mapEntries "AMX_LABEL" td.CommonLabels ++ mapEntries "AMX_GLABEL" td.GroupLabels
        ++ mapEntries "AMX_ANNOTATION" td.CommonAnnotations) := by
  unfold groupBlocks
  refine (((s.groupOuter.perm _).map _).flatten).trans ?_
  simp only [List.map_cons, List.map_nil, List.flatten_cons, List.flatten_nil,
    List.append_nil, List.append_assoc]
  exact (mapEntries_order_perm _ _ _).append
    ((mapEntries_order_perm _ _ _).append (mapEntries_order_perm _ _ _))

theorem alertBlocks_perm (s : Sched) (i : Nat) (a : Alert) :
    (alertBlocks s i a).flatten.Perm
      (mapEntries (alertKey (i + 1) ++ "_LABEL") a.Labels
        ++ mapEntries (alertKey (i + 1) ++ "_ANNOTATION") a.Annotations) := by
  unfold alertBlocks
  refine (((s.alertOuter i).perm _).map _).flatten.trans ?_
  have h1 : alertKey (i + 1) ++ "_" ++ "LABEL" = alertKey (i + 1) ++ "_LABEL" := by
    rw [String.append_assoc]; rfl
  have h2 : alertKey (i + 1) ++ "_" ++ "ANNOTATION" = alertKey (i + 1) ++ "_ANNOTATION" := by
    rw [String.append_assoc]; rfl
  simp only [List.map_cons, List.map_nil, List.flatten_cons, List.flatten_nil,
    List.append_nil, h1, h2]
  exact (mapEntries_order_perm _ _ _).append (mapEntries_order_perm _ _ _)

theorem alertsOut_perm (s : Sched) (i : Nat) (alerts : List Alert) :
    (alertsOut s i alerts).Perm (alertsRef (i + 1) alerts) := by
  induction alerts generalizing i with
  | nil => exact List.Perm.refl _
  | cons a rest ih =>
    simp only [alertsOut, alertsRef, alertRef, List.append_assoc]
    exact (List.Perm.refl _).append (((alertBlocks_perm s i a).append (ih (i + 1))).trans
      (by simp only [List.append_assoc]; exact List.Perm.refl _))

theorem amDataToEnv_perm (s : Sched) (td : Data) :
    (amDataToEnv s td).Perm (referenceEnv td) := by
  rw [amDataToEnv_eq]
  unfold referenceEnv
  simp only [List.append_assoc]
  exact (List.Perm.refl _).append
    (((groupBlocks_perm s td).append (alertsOut_perm s 0 td.Alerts)).trans
      (by simp only [List.append_assoc]; exact List.Perm.refl _))

/-- C1: for every alert group and every order in which the maps are traversed, the output of
`amDataToEnv` is a permutation of the reference list (the four group scalars, one entry per
common label, group label and common annotation, and for each alert at 1-based position `i`
its four scalars, one entry per label and one per annotation), so any two traversal orders
yield the same multiset of entries. -/
theorem C1_amDataToEnv_perm_reference (s s' : Sched) (td : Data) :
    (amDataToEnv s td).Perm (referenceEnv td)
      ∧ (amDataToEnv s td).Perm (amDataToEnv s' td)
      ∧ (∀ e, (amDataToEnv s td).count e = (referenceEnv td).count e) :=
  ⟨amDataToEnv_perm s td, (amDataToEnv_perm s td).trans (amDataToEnv_perm s' td).symm,
    fun e => (amDataToEnv_perm s td).count_eq e⟩

/-! ## Decimal renderings -/

theorem toDigitsCore_eq (fuel : Nat) : ∀ (n : Nat) (ds : List Char), 0 < n → n < fuel →
    Nat.toDigitsCore 10 fuel n ds = (Nat.digits 10 n).reverse.map Nat.digitChar ++ ds := by
  induction fuel with
  | zero => intro n ds _ h; omega
  | succ fuel ih =>
    intro n ds hn hf
    rw [Nat.toDigitsCore]
    have hd : Nat.digits 10 n = n % 10 :: Nat.digits 10 (n / 10) :=
      Nat.digits_def' (by decide) hn
    by_cases h0 : n / 10 = 0
    · simp [h0, hd]
    · have hpos : 0 < n / 10 := Nat.pos_of_ne_zero h0
      have hlt : n / 10 < fuel := by omega
      simp only [h0, if_false]
      rw [ih (n / 10) _ hpos hlt, hd]
      simp

theorem repr_data_pos (n : Nat) (hn : 0 < n) :
    (Nat.repr n).data = (Nat.digits 10 n).reverse.map Nat.digitChar := by
  simp [Nat.repr, Nat.toDigits, toDigitsCore_eq (n + 1) n [] hn (Nat.lt_succ_self n), List.asString]

theorem repr_data_zero : (Nat.repr 0).data = ['0'] := by decide

theorem digitChar_isDigit (d : Nat) (h : d < 10) : (Nat.digitChar d).isDigit = true := by
  interval_cases d <;> decide

theorem digitChar_val (d : Nat) (h : d < 10) : (Nat.digitChar d).toNat - 48 = d := by
  interval_cases d <;> decide

theorem repr_all_digits (n : Nat) : ∀ c ∈ (Nat.repr n).data, c.isDigit = true := by
  intro c hc
  rcases Nat.eq_zero_or_pos n with h | h
  · subst h; rw [repr_data_zero] at hc; simp at hc; subst hc; decide
  · rw [repr_data_pos n h] at hc
    simp only [List.mem_map, List.mem_reverse] at hc
    obtain ⟨d, hd, rfl⟩ := hc
    exact digitChar_isDigit d (Nat.digits_lt_base (by decide) hd)

theorem repr_ne_nil (n : Nat) : (Nat.repr n).data ≠ [] := by
  rcases Nat.eq_zero_or_pos n with h | h
  · subst h; rw [repr_data_zero]; simp
  · rw [repr_data_pos n h]
    simp only [ne_eq, List.map_eq_nil_iff, List.reverse_eq_nil_iff]
    exact Nat.digits_ne_nil_iff_ne_zero.mpr (Nat.ne_of_gt h)

theorem decValue_map_digitChar (ds : List Nat) (h : ∀ d ∈ ds, d < 10) :
    decValue (ds.reverse.map Nat.digitChar) = Nat.ofDigits 10 ds := by
  unfold decValue
  induction ds with
  | nil => simp
  | cons d ds ih =>
    simp only [List.reverse_cons, List.map_append, List.foldl_append, List.map_cons, List.map_nil,
      List.foldl_cons, List.foldl_nil]
    rw [ih (fun x hx => h x (List.mem_cons_of_mem _ hx))]
    have : (Nat.digitChar d).toNat - '0'.toNat = d := digitChar_val d (h d (List.mem_cons_self _ _))
    rw [this, Nat.ofDigits_cons]
    exact Nat.add_comm _ _

theorem decValue_repr (n : Nat) : decValue (Nat.repr n).data = n := by
  rcases Nat.eq_zero_or_pos n with h | h
  · subst h; decide
  · rw [repr_data_pos n h, decValue_map_digitChar _ (fun d hd => Nat.digits_lt_base (by decide) hd)]
    exact Nat.ofDigits_digits 10 n

theorem repr_injective {m n : Nat} (h : Nat.repr m = Nat.repr n) : m = n := by
  rw [← decValue_repr m, ← decValue_repr n, h]

/-! ## `timeToStr` -/

theorem wrapInt_idem (x : Int) : wrapInt 64 (wrapInt 64 x) = wrapInt 64 x := by
  unfold wrapInt
  norm_num

theorem wrapInt_range (x : Int) : -2 ^ 63 ≤ wrapInt 64 x ∧ wrapInt 64 x < 2 ^ 63 := by
  unfold wrapInt
  norm_num
  omega

theorem toInt_Unix (t : Time) : toInt t.Unix = t.Unix := wrapInt_idem _

theorem parseDigits_repr (n : Nat) : parseDigits (Nat.repr n).data = some n := by
  unfold parseDigits
  rw [if_pos ⟨repr_ne_nil n, List.all_eq_true.mpr (repr_all_digits n)⟩, decValue_repr]

theorem repr_head (n : Nat) : ∃ c cs, (Nat.repr n).data = c :: cs ∧ c.isDigit = true := by
  cases h : (Nat.repr n).data with
  | nil => exact absurd h (repr_ne_nil n)
  | cons c cs => exact ⟨c, cs, rfl, repr_all_digits n c (by rw [h]; exact List.mem_cons_self _ _)⟩

theorem atoi_repr (n : Nat) (h : (n : Int) < 2 ^ 63) : atoi (Nat.repr n) = some (n : Int) := by
  obtain ⟨c, cs, hd, hc⟩ := repr_head n
  have h1 : c ≠ '-' := by rintro rfl; revert hc; decide
  have h2 : c ≠ '+' := by rintro rfl; revert hc; decide
  have hp := parseDigits_repr n
  rw [hd] at hp
  have hr : inIntRange (n : Int) = some (n : Int) := by
    unfold inIntRange
    rw [if_pos ⟨by omega, h⟩]
  simp only [atoi, hd, if_neg h1, if_neg h2, hp, Option.bind, hr]

theorem atoi_neg_repr (n : Nat) (h : -2 ^ 63 ≤ -(n : Int)) :
    atoi ("-" ++ Nat.repr n) = some (-(n : Int)) := by
  have hd : ("-" ++ Nat.repr n).data = '-' :: (Nat.repr n).data := by
    rw [String.data_append]; rfl
  have hr : inIntRange (-(n : Int)) = some (-(n : Int)) := by
    unfold inIntRange
    rw [if_pos ⟨h, by omega⟩]
  simp only [atoi, hd, if_true, parseDigits_repr, Option.bind, hr]

theorem atoi_itoa (z : Int) (h : -2 ^ 63 ≤ z ∧ z < 2 ^ 63) : atoi (itoa z) = some z := by
  cases z with
  | ofNat n => exact atoi_repr n h.2
  | negSucc n =>
    have h1 : Int.negSucc n = -((n + 1 : Nat) : Int) := rfl
    have h2 := atoi_neg_repr (n + 1) (by rw [← h1]; exact h.1)
    rw [← h1] at h2
    exact h2

theorem itoa_nonneg (z : Int) (h : 0 ≤ z) : itoa z = Nat.repr z.toNat := by
  cases z with
  | ofNat n => rfl
  | negSucc n => exact absurd h (by simp)

theorem itoa_neg (z : Int) (h : z < 0) : itoa z = "-" ++ Nat.repr z.natAbs := by
  cases z with
  | ofNat n => exact absurd h (by simp)
  | negSucc n => rfl

theorem timeToStr_nonzero (t : Time) (h : t.IsZero = false) : timeToStr t = itoa t.Unix := by
  simp [timeToStr, h, toInt_Unix]

/-- C3: `timeToStr t` is the literal `0` for the zero time, and otherwise the decimal
rendering of the Unix epoch second of `t` (with a leading `-` before 1970), which
`strconv.Atoi` parses back to exactly that epoch second. -/
theorem C3_timeToStr_roundtrip (t : Time) :
    (t.IsZero = true → timeToStr t = "0")
      ∧ (t.IsZero = false →
          (0 ≤ t.Unix → timeToStr t = Nat.repr t.Unix.toNat)
            ∧ (t.Unix < 0 → timeToStr t = "-" ++ Nat.repr t.Unix.natAbs)
            ∧ atoi (timeToStr t) = some t.Unix) := by
  refine ⟨fun h => by simp [timeToStr, h], fun h => ?_⟩
  rw [timeToStr_nonzero t h]
  exact ⟨itoa_nonneg _, itoa_neg _, atoi_itoa _ (wrapInt_range _)⟩

/-- C3 at the epoch second 1700000000, which renders as `1700000000` and parses back. -/
theorem C3_timeToStr_roundtrip_witness :
    (Time.ofUnix 1700000000).IsZero = false
      ∧ timeToStr (Time.ofUnix 1700000000) = "1700000000"
      ∧ atoi (timeToStr (Time.ofUnix 1700000000)) = some 1700000000 :=
  ⟨by decide,
   ((C3_timeToStr_roundtrip (Time.ofUnix 1700000000)).2 (by decide)).1 (by decide),
   ((C3_timeToStr_roundtrip (Time.ofUnix 1700000000)).2 (by decide)).2.2⟩

/-! ## Beginnings of entries -/

theorem clash_elim {a b c : List Char} (h : Clash a b) (ha : a <+: c) (hb : b <+: c) : False := by
  rcases List.prefix_or_prefix_of_prefix ha hb with h1 | h1
  · exact h.1 h1
  · exact h.2 h1

theorem digits_sep_agree (a : List Char) : ∀ (b x y : List Char),
    (∀ c ∈ a, c.isDigit = true) → (∀ c ∈ b, c.isDigit = true) →
    a ++ '_' :: x <+: b ++ '_' :: y → a = b ∧ x <+: y := by
  induction a with
  | nil =>
    intro b x y _ hb h
    cases b with
    | nil => simpa using h
    | cons d b =>
      simp only [List.nil_append, List.cons_append, List.cons_prefix_cons] at h
      have := hb d (List.mem_cons_self _ _)
      rw [← h.1] at this
      exact absurd this (by decide)
  | cons c a ih =>
    intro b x y ha hb h
    cases b with
    | nil =>
      simp only [List.nil_append, List.cons_append, List.cons_prefix_cons] at h
      have := ha c (List.mem_cons_self _ _)
      rw [h.1] at this
      exact absurd this (by decide)
    | cons d b =>
      simp only [List.cons_append, List.cons_prefix_cons] at h
      obtain ⟨h1, h2⟩ := ih b x y (fun c hc => ha c (List.mem_cons_of_mem _ hc))
        (fun c hc => hb c (List.mem_cons_of_mem _ hc)) h.2
      exact ⟨by rw [h.1, h1], h2⟩

theorem alertKey_data (i : Nat) : (alertKey i).data = "AMX_ALERT_".data ++ (Nat.repr i).data := by
  simp [alertKey, String.data_append]

/-- An entry that starts with `AMX_ALERT_i_q` and has the form `AMX_ALERT_j_sub...` has
`i = j`, and `q`, `sub` do not clash. -/
theorem startsWith_alert {i j : Nat} {q sub rest e : String}
    (he : e = alertKey j ++ "_" ++ sub ++ rest)
    (h : startsWith (alertKey i ++ "_" ++ q) e) :
    i = j ∧ q.data <+: sub.data ++ rest.data := by
  subst he
  unfold startsWith at h
  simp only [String.data_append, alertKey_data, List.append_assoc,
    List.prefix_append_right_inj] at h
  have h' : (Nat.repr i).data ++ '_' :: q.data <+: (Nat.repr j).data ++ '_' :: (sub.data ++ rest.data) := h
  obtain ⟨h1, h2⟩ := digits_sep_agree _ _ _ _ (repr_all_digits i) (repr_all_digits j) h'
  exact ⟨repr_injective (String.ext h1), h2⟩

theorem subTags_clash : ∀ q ∈ subTags, ∀ sub ∈ subTags, q ≠ sub → Clash q.data sub.data := by
  decide

theorem groupTags_clash : ∀ T ∈ groupTags, T ≠ "AMX_ALERT_LEN" → Clash T.data "AMX_ALERT_".data := by
  decide

theorem groupPart_eq (s : Sched) (td : Data) :
    groupPart s td = groupScalars td ++ (groupBlocks s td).flatten := by
  unfold groupPart
  rw [rangeGroup_eq]
  rfl

theorem alertPart_eq (s : Sched) (i : Nat) (a : Alert) :
    alertPart s i a = alertScalars (i + 1) a ++ (alertBlocks s i a).flatten := by
  unfold alertPart
  rw [alertStep_eq, List.nil_append]

/-! ## The form of the entries -/

theorem mem_mapEntries {pre : String} {m : GoMap} {e : String} (h : e ∈ mapEntries pre m) :
    ∃ kv ∈ m, e = pre ++ "_" ++ kv.1 ++ "=" ++ kv.2 := by
  unfold mapEntries at h
  obtain ⟨kv, hkv, rfl⟩ := List.mem_map.mp h
  exact ⟨kv, hkv, rfl⟩

theorem groupPart_shape (s : Sched) (td : Data) (e : String) (h : e ∈ groupPart s td) :
    ∃ T ∈ groupTags, ∃ rest, e = T ++ rest := by
  rw [groupPart_eq] at h
  rcases List.mem_append.mp h with h | h
  · simp only [groupScalars, List.mem_cons, List.mem_singleton, List.not_mem_nil, or_false] at h
    rcases h with rfl | rfl | rfl | rfl
    · exact ⟨"AMX_RECEIVER", by decide, "=" ++ td.Receiver, by rw [← String.append_assoc]; rfl⟩
    · exact ⟨"AMX_STATUS", by decide, "=" ++ td.Status, by rw [← String.append_assoc]; rfl⟩
    · exact ⟨"AMX_EXTERNAL_URL", by decide, "=" ++ td.ExternalURL,
        by rw [← String.append_assoc]; rfl⟩
    · exact ⟨"AMX_ALERT_LEN", by decide, "=" ++ Nat.repr td.Alerts.length,
        by rw [← String.append_assoc]; rfl⟩
  · unfold groupBlocks at h
    obtain ⟨blk, hblk, he⟩ := List.mem_flatten.mp h
    obtain ⟨pm, hpm, rfl⟩ := List.mem_map.mp hblk
    obtain ⟨kv, _, rfl⟩ := mem_mapEntries he
    have hpm' := (s.groupOuter.perm _).mem_iff.mp hpm
    simp only [List.mem_cons, List.mem_singleton, List.not_mem_nil, or_false] at hpm'
    rcases hpm' with rfl | rfl | rfl
    · exact ⟨"AMX_LABEL_", by decide, kv.1 ++ "=" ++ kv.2, by
        simp only [String.append_assoc]; rfl⟩
    · exact ⟨"AMX_GLABEL_", by decide, kv.1 ++ "=" ++ kv.2, by
        simp only [String.append_assoc]; rfl⟩
    · exact ⟨"AMX_ANNOTATION_", by decide, kv.1 ++ "=" ++ kv.2, by
        simp only [String.append_assoc]; rfl⟩

theorem alertBlocks_shape (s : Sched) (i : Nat) (a : Alert) (e : String)
    (h : e ∈ (alertBlocks s i a).flatten) :
    ∃ sub ∈ ["LABEL_", "ANNOTATION_"], ∃ rest, e = alertKey (i + 1) ++ "_" ++ sub ++ rest := by
  unfold alertBlocks at h
  obtain ⟨blk, hblk, he⟩ := List.mem_flatten.mp h
  obtain ⟨pm, hpm, rfl⟩ := List.mem_map.mp hblk
  obtain ⟨kv, _, rfl⟩ := mem_mapEntries he
  have hpm' := ((s.alertOuter i).perm _).mem_iff.mp hpm
  simp only [List.mem_cons, List.mem_singleton, List.not_mem_nil, or_false] at hpm'
  rcases hpm' with rfl | rfl
  · exact ⟨"LABEL_", by decide, kv.1 ++ "=" ++ kv.2, by
      simp only [String.append_assoc]; rfl⟩
  · exact ⟨"ANNOTATION_", by decide, kv.1 ++ "=" ++ kv.2, by
      simp only [String.append_assoc]; rfl⟩

/-- The four scalar entries of an alert, with the name split after `AMX_ALERT_i_`. -/
theorem alertScalars_split (i : Nat) (a : Alert) :
    alertScalars i a =
      [alertKey i ++ "_" ++ "STATUS=" ++ a.Status,
       alertKey i ++ "_" ++ "START=" ++ timeToStr a.StartsAt,
       alertKey i ++ "_" ++ "END=" ++ timeToStr a.EndsAt,
       alertKey i ++ "_" ++ "URL=" ++ a.GeneratorURL] := by
  simp only [alertScalars, String.append_assoc]
  rfl

theorem alertPart_shape (s : Sched) (i : Nat) (a : Alert) (e : String)
    (h : e ∈ alertPart s i a) :
    ∃ sub ∈ subTags, ∃ rest, e = alertKey (i + 1) ++ "_" ++ sub ++ rest := by
  rw [alertPart_eq] at h
  rcases List.mem_append.mp h with h | h
  · rw [alertScalars_split] at h
    simp only [List.mem_cons, List.mem_singleton, List.not_mem_nil, or_false] at h
    rcases h with rfl | rfl | rfl | rfl
    · exact ⟨"STATUS=", by decide, _, rfl⟩
    · exact ⟨"START=", by decide, _, rfl⟩
    · exact ⟨"END=", by decide, _, rfl⟩
    · exact ⟨"URL=", by decide, _, rfl⟩
  · obtain ⟨sub, hsub, rest, he⟩ := alertBlocks_shape s i a e h
    refine ⟨sub, ?_, rest, he⟩
    simp only [List.mem_cons, List.mem_singleton, List.not_mem_nil, or_false] at hsub
    rcases hsub with rfl | rfl <;> decide

/-! ## Entries that start with the name of an alert -/

theorem alertsOut_cons (s : Sched) (k : Nat) (a : Alert) (rest : List Alert) :
    alertsOut s k (a :: rest) = alertPart s k a ++ alertsOut s (k + 1) rest := by
  rw [alertPart_eq]; rfl

theorem mem_alertsOut (s : Sched) (e : String) : ∀ (as : List Alert) (k : Nat),
    e ∈ alertsOut s k as ↔ ∃ i a, as[i]? = some a ∧ e ∈ alertPart s (k + i) a := by
  intro as
  induction as with
  | nil => intro k; simp [alertsOut]
  | cons b rest ih =>
    intro k
    rw [alertsOut_cons, List.mem_append, ih (k + 1)]
    constructor
    · rintro (h | ⟨i, a, hi, he⟩)
      · exact ⟨0, b, by simp, h⟩
      · exact ⟨i + 1, a, by simpa using hi, by rw [← Nat.add_assoc, Nat.add_right_comm]; exact he⟩
    · rintro ⟨i, a, hi, he⟩
      cases i with
      | zero =>
        simp only [List.getElem?_cons_zero, Option.some.injEq] at hi
        subst hi
        exact Or.inl he
      | succ i =>
        refine Or.inr ⟨i, a, by simpa using hi, ?_⟩
        rw [Nat.add_assoc, Nat.add_comm 1 i]; exact he

/-- No group-level entry starts with `AMX_ALERT_j_`. -/
theorem groupPart_not_alert (s : Sched) (td : Data) (e : String) (h : e ∈ groupPart s td)
    (j : Nat) : ¬ (alertKey j ++ "_").data <+: e.data := by
  intro hp
  obtain ⟨T, hT, rest, rfl⟩ := groupPart_shape s td e h
  simp only [String.data_append, alertKey_data, List.append_assoc] at hp
  by_cases hT' : T = "AMX_ALERT_LEN"
  · subst hT'
    have h1 : "AMX_ALERT_LEN".data = "AMX_ALERT_".data ++ ['L', 'E', 'N'] := by decide
    rw [h1, List.append_assoc, List.prefix_append_right_inj] at hp
    obtain ⟨c, cs, hd, hc⟩ := repr_head j
    rw [hd] at hp
    simp only [List.cons_append, List.cons_prefix_cons] at hp
    rw [hp.1] at hc
    exact absurd hc (by decide)
  · exact clash_elim (groupTags_clash T hT hT') (List.prefix_append _ _)
      ((List.prefix_append _ _).trans hp)

/-- An entry of the alert at index `i` starts with `AMX_ALERT_j_q` only for `j = i + 1`. -/
theorem alertPart_startsWith (s : Sched) (i : Nat) (a : Alert) (e : String)
    (h : e ∈ alertPart s i a) (j : Nat) (q : String)
    (hp : startsWith (alertKey j ++ "_" ++ q) e) : j = i + 1 := by
  obtain ⟨sub, _, rest, he⟩ := alertPart_shape s i a e h
  exact (startsWith_alert he hp).1

theorem startsWith_sub_iff (k : Nat) (q sub rest : String) (hq : q ∈ subTags)
    (hsub : sub ∈ subTags) :
    startsWith (alertKey k ++ "_" ++ q) (alertKey k ++ "_" ++ sub ++ rest) ↔ q = sub := by
  constructor
  · intro h
    by_contra hne
    exact clash_elim (subTags_clash q hq sub hsub hne) (startsWith_alert rfl h).2
      (List.prefix_append _ _)
  · rintro rfl
    unfold startsWith
    rw [String.data_append _ rest]
    exact List.prefix_append _ _

theorem startsWith_weaken {p q e : String} (h : startsWith (p ++ q) e) : startsWith p e := by
  unfold startsWith at *
  rw [String.data_append] at h
  exact (List.prefix_append _ _).trans h

/-- Among the group-level entries none starts with `AMX_ALERT_j_q`. -/
theorem filter_groupPart (s : Sched) (td : Data) (j : Nat) (q : String) :
    (groupPart s td).filter (fun e => decide (startsWith (alertKey j ++ "_" ++ q) e)) = [] := by
  rw [List.filter_eq_nil_iff]
  intro e he hp
  exact groupPart_not_alert s td e he j (startsWith_weaken (of_decide_eq_true hp))

/-- Among the mapping entries of an alert none starts with the name of a scalar entry. -/
theorem filter_alertBlocks (s : Sched) (i : Nat) (a : Alert) (q : String)
    (hq : q ∈ ["STATUS=", "START=", "END=", "URL="]) :
    (alertBlocks s i a).flatten.filter
      (fun e => decide (startsWith (alertKey (i + 1) ++ "_" ++ q) e)) = [] := by
  rw [List.filter_eq_nil_iff]
  intro e he hp
  obtain ⟨sub, hsub, rest, rfl⟩ := alertBlocks_shape s i a e he
  have hq' : q ∈ subTags := by
    simp only [List.mem_cons, List.mem_singleton, List.not_mem_nil, or_false] at hq
    rcases hq with rfl | rfl | rfl | rfl <;> decide
  have hsub' : sub ∈ subTags := by
    simp only [List.mem_cons, List.mem_singleton, List.not_mem_nil, or_false] at hsub
    rcases hsub with rfl | rfl <;> decide
  have := (startsWith_sub_iff (i + 1) q sub rest hq' hsub').mp (of_decide_eq_true hp)
  rw [← this] at hsub
  simp only [List.mem_cons, List.mem_singleton, List.not_mem_nil, or_false] at hq hsub
  rcases hq with rfl | rfl | rfl | rfl <;> rcases hsub with h | h <;>
    exact absurd h (by decide)

/-- The only entry of an alert that starts with `AMX_ALERT_i_STATUS=` (with `START=`, `END=`,
`URL=`) is the scalar entry of that name. -/
theorem filter_alertPart (s : Sched) (i : Nat) (a : Alert) :
    (alertPart s i a).filter (fun e => decide (startsWith (alertKey (i + 1) ++ "_" ++ "STATUS=") e))
        = [alertKey (i + 1) ++ "_" ++ "STATUS=" ++ a.Status]
    ∧ (alertPart s i a).filter
          (fun e => decide (startsWith (alertKey (i + 1) ++ "_" ++ "START=") e))
        = [alertKey (i + 1) ++ "_" ++ "START=" ++ timeToStr a.StartsAt]
    ∧ (alertPart s i a).filter (fun e => decide (startsWith (alertKey (i + 1) ++ "_" ++ "END=") e))
        = [alertKey (i + 1) ++ "_" ++ "END=" ++ timeToStr a.EndsAt]
    ∧ (alertPart s i a).filter (fun e => decide (startsWith (alertKey (i + 1) ++ "_" ++ "URL=") e))
        = [alertKey (i + 1) ++ "_" ++ "URL=" ++ a.GeneratorURL] := by
  have hmem : ∀ q ∈ ["STATUS=", "START=", "END=", "URL="], q ∈ subTags := by decide
  rw [alertPart_eq, alertScalars_split]
  simp only [List.filter_append]
  refine ⟨?_, ?_, ?_, ?_⟩
  · rw [filter_alertBlocks s i a "STATUS=" (by decide)]
    simp [List.filter_cons, startsWith_sub_iff, hmem]
  · rw [filter_alertBlocks s i a "START=" (by decide)]
    simp [List.filter_cons, startsWith_sub_iff, hmem]
  · rw [filter_alertBlocks s i a "END=" (by decide)]
    simp [List.filter_cons, startsWith_sub_iff, hmem]
  · rw [filter_alertBlocks s i a "URL=" (by decide)]
    simp [List.filter_cons, startsWith_sub_iff, hmem]

theorem filter_alertsOut_other (s : Sched) (as : List Alert) (k j : Nat) (q : String)
    (hj : ∀ i, i < as.length → j ≠ k + i + 1) :
    (alertsOut s k as).filter (fun e => decide (startsWith (alertKey j ++ "_" ++ q) e)) = [] := by
  rw [List.filter_eq_nil_iff]
  intro e he hp
  obtain ⟨i, a, hi, hea⟩ := (mem_alertsOut s e as k).mp he
  obtain ⟨hlt, _⟩ := List.getElem?_eq_some.mp hi
  exact hj i hlt (alertPart_startsWith s (k + i) a e hea j q (of_decide_eq_true hp))

theorem filter_alertsOut_hit (s : Sched) (q : String) (f : Alert → String)
    (hf : ∀ i a, (alertPart s i a).filter
        (fun e => decide (startsWith (alertKey (i + 1) ++ "_" ++ q) e))
      = [alertKey (i + 1) ++ "_" ++ q ++ f a]) :
    ∀ (as : List Alert) (k i : Nat) (a : Alert), as[i]? = some a →
      (alertsOut s k as).filter
          (fun e => decide (startsWith (alertKey (k + i + 1) ++ "_" ++ q) e))
        = [alertKey (k + i + 1) ++ "_" ++ q ++ f a] := by
  intro as
  induction as with
  | nil => intro k i a h; simp at h
  | cons b rest ih =>
    intro k i a h
    rw [alertsOut_cons, List.filter_append]
    cases i with
    | zero =>
      simp only [List.getElem?_cons_zero, Option.some.injEq] at h
      subst h
      rw [Nat.add_zero, hf k b, filter_alertsOut_other s rest (k + 1) (k + 1) q
        (fun i _ => by omega)]
      rfl
    | succ i =>
      have h' : rest[i]? = some a := by simpa using h
      have hnil : (alertPart s k b).filter
          (fun e => decide (startsWith (alertKey (k + (i + 1) + 1) ++ "_" ++ q) e)) = [] := by
        rw [List.filter_eq_nil_iff]
        intro e he hp
        have := alertPart_startsWith s k b e he _ q (of_decide_eq_true hp)
        omega
      have hidx : k + (i + 1) + 1 = k + 1 + i + 1 := by omega
      rw [hnil, List.nil_append, hidx]
      exact ih (k + 1) i a h'

/-- Among all entries of the output, exactly the scalar entry of the alert at index `i`
starts with `AMX_ALERT_(i+1)_q`, for `q` the name of a scalar. -/
theorem filter_amDataToEnv (s : Sched) (td : Data) (q : String) (f : Alert → String)
    (hf : ∀ i a, (alertPart s i a).filter
        (fun e => decide (startsWith (alertKey (i + 1) ++ "_" ++ q) e))
      = [alertKey (i + 1) ++ "_" ++ q ++ f a])
    (i : Nat) (a : Alert) (h : td.Alerts[i]? = some a) :
    (amDataToEnv s td).filter (fun e => decide (startsWith (alertKey (i + 1) ++ "_" ++ q) e))
      = [alertKey (i + 1) ++ "_" ++ q ++ f a] := by
  have h1 := filter_alertsOut_hit s q f hf td.Alerts 0 i a h
  rw [Nat.zero_add] at h1
  rw [amDataToEnv_eq, List.filter_append, h1]
  have h2 := filter_groupPart s td (i + 1) q
  rw [groupPart_eq] at h2
  rw [h2]
  rfl

theorem alertKey_scalar_names (k : Nat) :
    alertKey k ++ "_STATUS=" = alertKey k ++ "_" ++ "STATUS="
      ∧ alertKey k ++ "_START=" = alertKey k ++ "_" ++ "START="
      ∧ alertKey k ++ "_END=" = alertKey k ++ "_" ++ "END="
      ∧ alertKey k ++ "_URL=" = alertKey k ++ "_" ++ "URL=" := by
  simp only [String.append_assoc]
  exact ⟨rfl, rfl, rfl, rfl⟩

theorem amDataToEnv_no_alert (s : Sched) (td : Data) (j : Nat)
    (hj : j = 0 ∨ td.Alerts.length < j) (e : String) (he : e ∈ amDataToEnv s td) :
    ¬ startsWith (alertKey j ++ "_") e := by
  intro hp
  rw [amDataToEnv_eq, ← groupPart_eq] at he
  rcases List.mem_append.mp he with he | he
  · exact groupPart_not_alert s td e he j hp
  · obtain ⟨i, a, hi, hea⟩ := (mem_alertsOut s e td.Alerts 0).mp he
    obtain ⟨hlt, _⟩ := List.getElem?_eq_some.mp hi
    have hp' : startsWith (alertKey j ++ "_" ++ "") e := by
      rw [String.append_empty]; exact hp
    have := alertPart_startsWith s (0 + i) a e hea j "" hp'
    omega

/-- C2: the output of `amDataToEnv` contains `AMX_ALERT_LEN=` followed by the decimal number
`n` of alerts; for each `i` with `1 ≤ i ≤ n` exactly one entry starts with each of
`AMX_ALERT_i_STATUS=`, `AMX_ALERT_i_START=`, `AMX_ALERT_i_END=`, `AMX_ALERT_i_URL=`, and it
carries the field of the `i`-th alert; and no entry starts with `AMX_ALERT_j_` for `j = 0`
or `j > n`. -/
theorem C2_alert_len_and_blocks (s : Sched) (td : Data) :
    ("AMX_ALERT_LEN=" ++ Nat.repr td.Alerts.length) ∈ amDataToEnv s td
      ∧ (∀ i, 1 ≤ i → i ≤ td.Alerts.length → ∃ a, td.Alerts[i - 1]? = some a
          ∧ (amDataToEnv s td).filter (fun e => decide (startsWith (alertKey i ++ "_STATUS=") e))
              = [alertKey i ++ "_STATUS=" ++ a.Status]
          ∧ (amDataToEnv s td).filter (fun e => decide (startsWith (alertKey i ++ "_START=") e))
              = [alertKey i ++ "_START=" ++ timeToStr a.StartsAt]
          ∧ (amDataToEnv s td).filter (fun e => decide (startsWith (alertKey i ++ "_END=") e))
              = [alertKey i ++ "_END=" ++ timeToStr a.EndsAt]
          ∧ (amDataToEnv s td).filter (fun e => decide (startsWith (alertKey i ++ "_URL=") e))
              = [alertKey i ++ "_URL=" ++ a.GeneratorURL])
      ∧ (∀ j, (j = 0 ∨ td.Alerts.length < j) →
          ∀ e ∈ amDataToEnv s td, ¬ startsWith (alertKey j ++ "_") e) := by
  refine ⟨?_, ?_, fun j hj e he => amDataToEnv_no_alert s td j hj e he⟩
  · rw [amDataToEnv_eq]
    simp [groupScalars]
  · intro i h1 h2
    obtain ⟨k, rfl⟩ : ∃ k, i = k + 1 := ⟨i - 1, by omega⟩
    have hk : k < td.Alerts.length := by omega
    refine ⟨td.Alerts[k], by simp [hk], ?_⟩
    have hget : td.Alerts[k]? = some td.Alerts[k] := by simp [hk]
    obtain ⟨n1, n2, n3, n4⟩ := alertKey_scalar_names (k + 1)
    rw [n1, n2, n3, n4]
    exact ⟨filter_amDataToEnv s td "STATUS=" (fun a => a.Status)
        (fun i a => (filter_alertPart s i a).1) k _ hget,
      filter_amDataToEnv s td "START=" (fun a => timeToStr a.StartsAt)
        (fun i a => (filter_alertPart s i a).2.1) k _ hget,
      filter_amDataToEnv s td "END=" (fun a => timeToStr a.EndsAt)
        (fun i a => (filter_alertPart s i a).2.2.1) k _ hget,
      filter_amDataToEnv s td "URL=" (fun a => a.GeneratorURL)
        (fun i a => (filter_alertPart s i a).2.2.2) k _ hget⟩

/-- C2 for the example group: `AMX_ALERT_LEN=1`, exactly one entry that starts with
`AMX_ALERT_1_STATUS=`, which is `AMX_ALERT_1_STATUS=firing`, and the entry
`AMX_ALERT_1_STATUS=firing` of the output does not start with `AMX_ALERT_2_`. -/
theorem C2_alert_len_and_blocks_witness :
    (1 ≤ 1 ∧ 1 ≤ exampleGroup.Alerts.length)
      ∧ "AMX_ALERT_LEN=1" ∈ amDataToEnv Sched.listed exampleGroup
      ∧ (amDataToEnv Sched.listed exampleGroup).filter
          (fun e => decide (startsWith "AMX_ALERT_1_STATUS=" e)) = ["AMX_ALERT_1_STATUS=firing"]
      ∧ ¬ startsWith "AMX_ALERT_2_" "AMX_ALERT_1_STATUS=firing" := by
  obtain ⟨h0, h1, h2⟩ := C2_alert_len_and_blocks Sched.listed exampleGroup
  obtain ⟨a, ha, hs, -⟩ := h1 1 (by decide) (by decide)
  have hae : a = exampleAlert := by
    have : exampleGroup.Alerts[1 - 1]? = some exampleAlert := rfl
    rw [this] at ha
    exact (Option.some.inj ha).symm
  subst hae
  exact ⟨⟨by decide, by decide⟩, h0, hs,
    h2 2 (Or.inr (by decide)) "AMX_ALERT_1_STATUS=firing" (by decide)⟩

/-! ## Variable names -/

theorem varName_data (e : String) : (varName e).data = e.data.takeWhile (fun c => c != '=') :=
  rfl

/-- A beginning of an entry that holds no `=` is a beginning of its variable name. -/
theorem prefix_varName {p : List Char} {e : String} (h : p <+: e.data)
    (hp : ∀ c ∈ p, c ≠ '=') : p <+: (varName e).data := by
  obtain ⟨r, hr⟩ := h
  rw [varName_data, ← hr, List.takeWhile_append_of_pos (fun c hc => by simpa using hp c hc)]
  exact List.prefix_append _ _

theorem groupTags_no_eq : ∀ T ∈ groupTags, ∀ c ∈ T.data, c ≠ '=' := by
  decide

theorem alertTag_no_eq (j : Nat) : ∀ c ∈ (alertKey j ++ "_").data, c ≠ '=' := by
  intro c hc
  simp only [String.data_append, alertKey_data, List.mem_append] at hc
  rcases hc with (hc | hc) | hc
  · revert c; decide
  · have := repr_all_digits j c hc
    rintro rfl
    exact absurd this (by decide)
  · revert c; decide

/-- The beginning `AMX_ALERT_i_` determines `i`. -/
theorem alertTag_inj {i j : Nat} {c : List Char} (hi : (alertKey i ++ "_").data <+: c)
    (hj : (alertKey j ++ "_").data <+: c) : i = j := by
  have key : ∀ {a b : Nat}, (alertKey a ++ "_").data <+: (alertKey b ++ "_").data → a = b := by
    intro a b h
    simp only [String.data_append, alertKey_data, List.append_assoc,
      List.prefix_append_right_inj] at h
    have h' : (Nat.repr a).data ++ '_' :: [] <+: (Nat.repr b).data ++ '_' :: [] := h
    exact repr_injective (String.ext
      (digits_sep_agree _ _ _ _ (repr_all_digits a) (repr_all_digits b) h').1)
  rcases List.prefix_or_prefix_of_prefix hi hj with h | h
  · exact key h
  · exact (key h).symm

/-- No text begins both with the name of a group-level entry and with `AMX_ALERT_j_`. -/
theorem groupTag_alert_clash {T : String} (hT : T ∈ groupTags) (j : Nat) {c : List Char}
    (h1 : T.data <+: c) (h2 : (alertKey j ++ "_").data <+: c) : False := by
  by_cases hT' : T = "AMX_ALERT_LEN"
  · subst hT'
    have hd : "AMX_ALERT_LEN".data = "AMX_ALERT_".data ++ ['L', 'E', 'N'] := by decide
    obtain ⟨d, ds, hr, hdig⟩ := repr_head j
    have hne : d ≠ 'L' := by rintro rfl; exact absurd hdig (by decide)
    have h2' : "AMX_ALERT_".data ++ (d :: (ds ++ ['_'])) <+: c := by
      have : (alertKey j ++ "_").data = "AMX_ALERT_".data ++ (d :: (ds ++ ['_'])) := by
        rw [String.data_append, alertKey_data, hr, List.append_assoc]
        rfl
      rw [← this]; exact h2
    rw [hd] at h1
    rcases List.prefix_or_prefix_of_prefix h1 h2' with h | h
    · rw [List.prefix_append_right_inj, List.cons_prefix_cons] at h
      exact hne h.1.symm
    · rw [List.prefix_append_right_inj, List.cons_prefix_cons] at h
      exact hne h.1
  · have h3 : "AMX_ALERT_".data <+: c := by
      refine List.IsPrefix.trans ?_ h2
      simp only [String.data_append, alertKey_data, List.append_assoc]
      exact List.prefix_append _ _
    exact clash_elim (groupTags_clash T hT hT') h1 h3

theorem groupPart_varName_tag (s : Sched) (td : Data) (e : String) (h : e ∈ groupPart s td) :
    ∃ T ∈ groupTags, T.data <+: (varName e).data := by
  obtain ⟨T, hT, rest, rfl⟩ := groupPart_shape s td e h
  refine ⟨T, hT, prefix_varName ?_ (groupTags_no_eq T hT)⟩
  rw [String.data_append]
  exact List.prefix_append _ _

theorem alertPart_varName_tag (s : Sched) (i : Nat) (a : Alert) (e : String)
    (h : e ∈ alertPart s i a) : (alertKey (i + 1) ++ "_").data <+: (varName e).data := by
  obtain ⟨sub, _, rest, rfl⟩ := alertPart_shape s i a e h
  refine prefix_varName ?_ (alertTag_no_eq (i + 1))
  simp only [String.data_append, List.append_assoc]
  exact ⟨sub.data ++ rest.data, by simp⟩

theorem group_alert_names (s : Sched) (td : Data) (e1 : String) (h1 : e1 ∈ groupPart s td)
    (i : Nat) (a : Alert) (e2 : String) (h2 : e2 ∈ alertPart s i a) :
    varName e1 ≠ varName e2 := by
  intro heq
  obtain ⟨T, hT, hp⟩ := groupPart_varName_tag s td e1 h1
  have hq := alertPart_varName_tag s i a e2 h2
  rw [← heq] at hq
  exact groupTag_alert_clash hT (i + 1) hp hq

theorem alert_alert_names (s : Sched) (i j : Nat) (a b : Alert) (hij : i ≠ j) (e1 e2 : String)
    (h1 : e1 ∈ alertPart s i a) (h2 : e2 ∈ alertPart s j b) : varName e1 ≠ varName e2 := by
  intro heq
  have hp := alertPart_varName_tag s i a e1 h1
  have hq := alertPart_varName_tag s j b e2 h2
  rw [← heq] at hq
  have := alertTag_inj hp hq
  omega

theorem amDataToEnv_parts (s : Sched) (td : Data) :
    amDataToEnv s td = groupPart s td ++ alertsOut s 0 td.Alerts := by
  rw [amDataToEnv_eq, groupPart_eq]

/-- C5: the output of `amDataToEnv` is the group-level entries followed by the entries of
the alerts; a group-level entry and an entry of an alert never have the same variable name
(the text before the first `=`), whatever the keys are, and entries of two different alert
positions never have the same variable name. -/
theorem C5_no_name_collision (s : Sched) (td : Data) :
    amDataToEnv s td = groupPart s td ++ alertsOut s 0 td.Alerts
      ∧ (∀ e, e ∈ alertsOut s 0 td.Alerts ↔
          ∃ i a, td.Alerts[i]? = some a ∧ e ∈ alertPart s i a)
      ∧ (∀ e1 ∈ groupPart s td, ∀ i a, td.Alerts[i]? = some a →
          ∀ e2 ∈ alertPart s i a, varName e1 ≠ varName e2)
      ∧ (∀ i j a b, td.Alerts[i]? = some a → td.Alerts[j]? = some b → i ≠ j →
          ∀ e1 ∈ alertPart s i a, ∀ e2 ∈ alertPart s j b, varName e1 ≠ varName e2) := by
  refine ⟨amDataToEnv_parts s td, fun e => ?_, ?_, ?_⟩
  · have := mem_alertsOut s e td.Alerts 0
    simpa using this
  · intro e1 h1 i a _ e2 h2
    exact group_alert_names s td e1 h1 i a e2 h2
  · intro i j a b _ _ hij e1 h1 e2 h2
    exact alert_alert_names s i j a b hij e1 e2 h1 h2

/-- C5 for the example group with the alert delivered twice: the names `AMX_RECEIVER` and
`AMX_ALERT_1_LABEL_severity` differ, and so do the names of the label entries of the two
alerts. -/
theorem C5_no_name_collision_witness :
    varName "AMX_RECEIVER=team-x" ≠ varName "AMX_ALERT_1_LABEL_severity=critical"
      ∧ varName "AMX_ALERT_1_LABEL_severity=critical"
          ≠ varName "AMX_ALERT_2_LABEL_severity=critical" :=
  have h := C5_no_name_collision Sched.listed
    ⟨"team-x", "firing", [exampleAlert, exampleAlert], [], [], [], ""⟩
  ⟨h.2.2.1 "AMX_RECEIVER=team-x" (by decide) 0 exampleAlert rfl
      "AMX_ALERT_1_LABEL_severity=critical" (by decide),
   h.2.2.2 0 1 exampleAlert exampleAlert rfl rfl (by decide)
      "AMX_ALERT_1_LABEL_severity=critical" (by decide)
      "AMX_ALERT_2_LABEL_severity=critical" (by decide)⟩

/-! ## Block order -/

theorem alertPart_perm (s : Sched) (i : Nat) (a : Alert) :
    (alertPart s i a).Perm (alertRef (i + 1) a) := by
  rw [alertPart_eq]
  unfold alertRef
  rw [List.append_assoc]
  exact (List.Perm.refl _).append (alertBlocks_perm s i a)

theorem alertsOut_blocks (s : Sched) (as : List Alert) : ∀ k : Nat,
    BlocksInOrder (fun ia => alertRef ia.1 ia.2) (as.enumFrom (k + 1)) (alertsOut s k as) := by
  induction as with
  | nil => intro k; exact ⟨[], List.Forall₂.nil, rfl⟩
  | cons a rest ih =>
    intro k
    obtain ⟨blocks, hb, he⟩ := ih (k + 1)
    refine ⟨alertPart s k a :: blocks, List.Forall₂.cons (alertPart_perm s k a) hb, ?_⟩
    rw [alertsOut_cons, he]
    rfl

theorem groupBlocks_blocks (s : Sched) (td : Data) :
    BlocksInOrder (fun pm => mapEntries pm.1 pm.2)
      (s.groupOuter.order
        [("AMX_LABEL", td.CommonLabels), ("AMX_GLABEL", td.GroupLabels),
         ("AMX_ANNOTATION", td.CommonAnnotations)])
      (groupBlocks s td).flatten := by
  refine ⟨groupBlocks s td, ?_, rfl⟩
  unfold groupBlocks
  rw [List.forall₂_map_left_iff]
  exact List.forall₂_same.mpr (fun pm _ => mapEntries_order_perm _ _ _)

theorem amDataToEnv_blockOrder (s : Sched) (td : Data) :
    SomeBlockOrder td (amDataToEnv s td) :=
  ⟨(groupBlocks s td).flatten, alertsOut s 0 td.Alerts, amDataToEnv_eq s td,
    ⟨_, s.groupOuter.perm _, groupBlocks_blocks s td⟩, alertsOut_blocks s td.Alerts 0⟩

theorem twoBlockGroup_reversed :
    amDataToEnv Sched.reversed twoBlockGroup
      = ["AMX_RECEIVER=", "AMX_STATUS=", "AMX_EXTERNAL_URL=", "AMX_ALERT_LEN=0",
         "AMX_GLABEL_b=2", "AMX_LABEL_a=1"] := by
  decide

theorem twoBlockGroup_not_fixed :
    ¬ FixedBlockOrder twoBlockGroup (amDataToEnv Sched.reversed twoBlockGroup) := by
  rintro ⟨g, al, hout, ⟨bs, hbs, rfl⟩, ⟨as, has, rfl⟩⟩
  have has' : as = [] := by
    cases has
    rfl
  subst has'
  rw [twoBlockGroup_reversed] at hout
  cases hbs with
  | cons h1 hbs =>
    cases hbs with
    | cons h2 hbs =>
      cases hbs with
      | cons h3 hbs =>
        cases hbs
        have e1 := List.perm_singleton.mp h1
        have e2 := List.perm_singleton.mp h2
        have e3 := List.perm_nil.mp h3
        subst e1 e2 e3
        revert hout
        decide

/-- C4, as the code has it: for every alert group and every traversal order the output of
`amDataToEnv` lists the four group-level scalar entries first, then the blocks of the three
group-level maps, each block contiguous, the three blocks in the order in which the map
literal of line 133 yields them (any order), and then the blocks of the alerts in the order
of the alerts, all entries of one alert before any of the next. -/
theorem C4_block_order (s : Sched) (td : Data) : SomeBlockOrder td (amDataToEnv s td) :=
  amDataToEnv_blockOrder s td

/-- C4 fails as stated: when the map literal of line 133 yields `AMX_GLABEL` before
`AMX_LABEL`, the entry `AMX_GLABEL_b=2` precedes `AMX_LABEL_a=1` in the output. -/
theorem C4_fixed_order_counterexample :
    amDataToEnv Sched.reversed twoBlockGroup
        = ["AMX_RECEIVER=", "AMX_STATUS=", "AMX_EXTERNAL_URL=", "AMX_ALERT_LEN=0",
           "AMX_GLABEL_b=2", "AMX_LABEL_a=1"]
      ∧ ¬ FixedBlockOrder twoBlockGroup (amDataToEnv Sched.reversed twoBlockGroup) :=
  ⟨twoBlockGroup_reversed, twoBlockGroup_not_fixed⟩

/-! ## Keys of one mapping -/

theorem mapEntries_eq_map (pre : String) (m : GoMap) : mapEntries pre m = m.map (entryOf pre) :=
  rfl

theorem mem_alertsRef_of_mapping (as : List Alert) : ∀ (i : Nat) (pm : String × GoMap),
    pm ∈ alertMappings i as → ∀ kv ∈ pm.2, entryOf pm.1 kv ∈ alertsRef i as := by
  induction as with
  | nil => intro i pm h; simp [alertMappings] at h
  | cons a rest ih =>
    intro i pm h kv hkv
    simp only [alertMappings, List.mem_cons] at h
    simp only [alertsRef, alertRef, List.mem_append, mapEntries_eq_map, List.mem_map]
    rcases h with rfl | rfl | h
    · exact Or.inl (Or.inl (Or.inr ⟨kv, hkv, rfl⟩))
    · exact Or.inl (Or.inr ⟨kv, hkv, rfl⟩)
    · exact Or.inr (ih (i + 1) pm h kv hkv)

theorem mem_reference_of_mapping (td : Data) (pm : String × GoMap) (h : pm ∈ mappings td)
    (kv : String × String) (hkv : kv ∈ pm.2) : entryOf pm.1 kv ∈ referenceEnv td := by
  simp only [mappings, List.mem_append, List.mem_cons, List.mem_singleton, List.not_mem_nil,
    or_false] at h
  simp only [referenceEnv, List.mem_append, mapEntries_eq_map, List.mem_map]
  rcases h with (rfl | rfl | rfl) | h
  · exact Or.inl (Or.inl (Or.inl (Or.inr ⟨kv, hkv, rfl⟩)))
  · exact Or.inl (Or.inl (Or.inr ⟨kv, hkv, rfl⟩))
  · exact Or.inl (Or.inr ⟨kv, hkv, rfl⟩)
  · exact Or.inr (mem_alertsRef_of_mapping td.Alerts 1 pm h kv hkv)

theorem alertKey_no_eq (i : Nat) : ∀ c ∈ (alertKey i).data, c ≠ '=' := by
  intro c hc
  exact alertTag_no_eq i c (by rw [String.data_append]; exact List.mem_append_left _ hc)

theorem alertMappings_no_eq (as : List Alert) : ∀ (i : Nat) (pm : String × GoMap),
    pm ∈ alertMappings i as → ∀ c ∈ pm.1.data, c ≠ '=' := by
  induction as with
  | nil => intro i pm h; simp [alertMappings] at h
  | cons a rest ih =>
    intro i pm h c hc
    simp only [alertMappings, List.mem_cons] at h
    rcases h with rfl | rfl | h
    · simp only [String.data_append, List.mem_append] at hc
      rcases hc with hc | hc
      · exact alertKey_no_eq i c hc
      · revert c; decide
    · simp only [String.data_append, List.mem_append] at hc
      rcases hc with hc | hc
      · exact alertKey_no_eq i c hc
      · revert c; decide
    · exact ih (i + 1) pm h c hc

theorem mappings_no_eq (td : Data) (pm : String × GoMap) (h : pm ∈ mappings td) :
    ∀ c ∈ pm.1.data, c ≠ '=' := by
  simp only [mappings, List.mem_append, List.mem_cons, List.mem_singleton, List.not_mem_nil,
    or_false] at h
  rcases h with (rfl | rfl | rfl) | h
  · show ∀ c ∈ "AMX_LABEL".data, c ≠ '='
    decide
  · show ∀ c ∈ "AMX_GLABEL".data, c ≠ '='
    decide
  · show ∀ c ∈ "AMX_ANNOTATION".data, c ≠ '='
    decide
  · exact alertMappings_no_eq td.Alerts 1 pm h

/-- The variable name of the entry of a key without `=` is the stem, `_` and the key. -/
theorem varName_entryOf (pre : String) (kv : String × String)
    (hpre : ∀ c ∈ pre.data, c ≠ '=') (hk : ∀ c ∈ kv.1.data, c ≠ '=') :
    varName (entryOf pre kv) = pre ++ "_" ++ kv.1 := by
  apply String.ext
  have hall : ∀ c ∈ (pre ++ "_" ++ kv.1).data, (c != '=') = true := by
    intro c hc
    simp only [String.data_append, List.mem_append] at hc
    rcases hc with (hc | hc) | hc
    · simpa using hpre c hc
    · revert c; decide
    · simpa using hk c hc
  have hd : (entryOf pre kv).data = (pre ++ "_" ++ kv.1).data ++ ('=' :: kv.2.data) := by
    simp only [entryOf, String.data_append, List.append_assoc]
    rfl
  rw [varName_data, hd, List.takeWhile_append_of_pos hall]
  simp

theorem entryOf_names_ne (pre : String) (kv1 kv2 : String × String) (hne : kv1.1 ≠ kv2.1)
    (hpre : ∀ c ∈ pre.data, c ≠ '=') (h1 : ∀ c ∈ kv1.1.data, c ≠ '=')
    (h2 : ∀ c ∈ kv2.1.data, c ≠ '=') :
    varName (entryOf pre kv1) ≠ varName (entryOf pre kv2) := by
  rw [varName_entryOf pre kv1 hpre h1, varName_entryOf pre kv2 hpre h2]
  intro h
  have hd := congrArg String.data h
  simp only [String.data_append, List.append_assoc] at hd
  exact hne (String.ext (List.append_cancel_left (List.append_cancel_left hd)))

theorem collidingGroup_listed :
    amDataToEnv Sched.listed collidingGroup
      = ["AMX_RECEIVER=", "AMX_STATUS=", "AMX_EXTERNAL_URL=", "AMX_ALERT_LEN=0",
         "AMX_LABEL_a=b=c", "AMX_LABEL_a=b=c"] := by
  decide

theorem collidingGroup_collides : ¬ NoKeyCollision collidingGroup := by
  intro h
  have := h ("AMX_LABEL", [("a", "b=c"), ("a=b", "c")]) (by decide) ("a", "b=c") (by decide)
    ("a=b", "c") (by decide) (by decide)
  exact this.1 (by decide)

/-- C10, as the code has it: for every alert group, every one of its mappings and two
distinct keys of that mapping that do not contain `=`, the two entries that `amDataToEnv`
produces for them are in the output, are different strings and have different variable
names, for arbitrary values, including ones that contain `=`. -/
theorem C10_no_key_collision (s : Sched) (td : Data) (pm : String × GoMap)
    (hpm : pm ∈ mappings td) (kv1 kv2 : String × String) (h1 : kv1 ∈ pm.2) (h2 : kv2 ∈ pm.2)
    (hne : kv1.1 ≠ kv2.1) (hk1 : ∀ c ∈ kv1.1.data, c ≠ '=') (hk2 : ∀ c ∈ kv2.1.data, c ≠ '=') :
    entryOf pm.1 kv1 ∈ amDataToEnv s td ∧ entryOf pm.1 kv2 ∈ amDataToEnv s td
      ∧ entryOf pm.1 kv1 ≠ entryOf pm.1 kv2
      ∧ varName (entryOf pm.1 kv1) ≠ varName (entryOf pm.1 kv2) := by
  have hn := entryOf_names_ne pm.1 kv1 kv2 hne (mappings_no_eq td pm hpm) hk1 hk2
  exact ⟨(amDataToEnv_perm s td).mem_iff.mpr (mem_reference_of_mapping td pm hpm kv1 h1),
    (amDataToEnv_perm s td).mem_iff.mpr (mem_reference_of_mapping td pm hpm kv2 h2),
    fun h => hn (by rw [h]), hn⟩

/-- C10 fails as stated: the distinct keys `a` and `a=b` of one mapping, with the values
`b=c` and `c`, both produce the entry `AMX_LABEL_a=b=c`. -/
theorem C10_key_collision_counterexample :
    GoMap.WF collidingGroup.CommonLabels
      ∧ amDataToEnv Sched.listed collidingGroup
          = ["AMX_RECEIVER=", "AMX_STATUS=", "AMX_EXTERNAL_URL=", "AMX_ALERT_LEN=0",
             "AMX_LABEL_a=b=c", "AMX_LABEL_a=b=c"]
      ∧ ¬ NoKeyCollision collidingGroup :=
  ⟨by unfold GoMap.WF; decide, collidingGroup_listed, collidingGroup_collides⟩

/-- C10 at the labels `severity` and `team` of one alert. -/
theorem C10_no_key_collision_witness :
    varName (entryOf "AMX_LABEL" ("severity", "a=b")) ≠ varName (entryOf "AMX_LABEL" ("team", "x"))
      ∧ entryOf "AMX_LABEL" ("severity", "a=b")
          ∈ amDataToEnv Sched.reversed ⟨"", "", [], [], [("severity", "a=b"), ("team", "x")], [], ""⟩ :=
  have h := C10_no_key_collision Sched.reversed
    ⟨"", "", [], [], [("severity", "a=b"), ("team", "x")], [], ""⟩
    ("AMX_LABEL", [("severity", "a=b"), ("team", "x")]) (by decide)
    ("severity", "a=b") ("team", "x") (by decide) (by decide) (by decide) (by decide) (by decide)
  ⟨h.2.2.2, h.1⟩

/-! ## The runner -/

theorem setLogPath_ok (w : World) (h : w.logWritable = true) : setLogPath w = .ok w := by
  simp [setLogPath, h]

theorem handleError_ok (err : String) (w : World) (h : w.logWritable = true) :
    handleError err w
      = .ok { w with trace := w.trace ++ [Event.httpError err 500, Event.log "error" err] } := by
  simp only [handleError, setLogPath_ok w h, logCall]
  simp [bind, Except.bind, pure, Except.pure]

/-- With a log file that can be opened, the writes of the child only add log calls. -/
theorem foldlM_logWrite (ps : List String) : ∀ (w : World), w.logWritable = true →
    ps.foldlM logWriter.Write w
      = .ok { w with trace := w.trace ++ ps.map (Event.log "debug") } := by
  induction ps with
  | nil => intro w _; simp [pure, Except.pure]
  | cons p ps ih =>
    intro w h
    rw [List.foldlM_cons]
    have h1 : logWriter.Write w p = .ok (logCall "debug" p w) := by
      simp [logWriter.Write, setLogPath_ok w h, bind, Except.bind, pure, Except.pure]
    rw [h1]
    have h2 := ih (logCall "debug" p w) h
    simp only [bind, Except.bind]
    rw [h2]
    simp [logCall]

/-- Whenever the writes of the child return, the gauge is untouched by them. -/
theorem foldlM_logWrite_gauge (ps : List String) : ∀ (w w' : World),
    ps.foldlM logWriter.Write w = .ok w' →
      w'.processesCurrent = w.processesCurrent ∧ w'.logWritable = w.logWritable
        ∧ w'.errCounter = w.errCounter ∧ w'.gaugeLog = w.gaugeLog := by
  induction ps with
  | nil =>
    intro w w' h
    simp only [List.foldlM_nil, pure, Except.pure, Except.ok.injEq] at h
    subst h
    exact ⟨rfl, rfl, rfl, rfl⟩
  | cons p ps ih =>
    intro w w' h
    rw [List.foldlM_cons] at h
    by_cases hw : w.logWritable = true
    · have h1 : logWriter.Write w p = .ok (logCall "debug" p w) := by
        simp [logWriter.Write, setLogPath_ok w hw, bind, Except.bind, pure, Except.pure]
      rw [h1] at h
      exact ih (logCall "debug" p w) w' h
    · have h1 : logWriter.Write w p = .error (Abort.osExit 1) := by
        simp [logWriter.Write, setLogPath, hw, bind, Except.bind]
      rw [h1] at h
      exact absurd h (by simp [bind, Except.bind])

theorem run_ok (r : runner) (proc : ProcResult) (env : List String) (w : World)
    (h : w.logWritable = true) :
    r.run proc env w = .ok (r.after proc env w, cmdRun proc) := by
  unfold runner.run
  simp only [bind, Except.bind, pure, Except.pure, observe]
  rw [foldlM_logWrite proc.output
    ⟨w.logWritable, w.environ, w.processesCurrent + 1, w.errCounter,
      w.trace ++ [Event.gaugeInc] ++ [Event.spawn r.command r.args (w.environ ++ env)],
      w.gaugeLog ++ [(Event.gaugeInc, w.processesCurrent + 1)]
        ++ [(Event.spawn r.command r.args (w.environ ++ env), w.processesCurrent + 1)]⟩ h]
  simp [runner.after, gaugeRecord]

/-- Whenever a call of `runner.run` returns, the gauge is back at its value, and the record
of the gauge has grown by the increment, the attempt to spawn and the decrement. -/
theorem run_gauge (r : runner) (proc : ProcResult) (env : List String) (w w' : World)
    (err : Option String) (h : r.run proc env w = .ok (w', err)) :
    w'.processesCurrent = w.processesCurrent ∧ w'.logWritable = w.logWritable
      ∧ w'.errCounter = w.errCounter
      ∧ w'.gaugeLog = w.gaugeLog ++ gaugeRecord r w.environ env w.processesCurrent := by
  unfold runner.run at h
  simp only [bind, Except.bind, pure, Except.pure] at h
  split at h
  · exact absurd h (by simp)
  · rename_i w1 hw1
    obtain ⟨g1, g2, g3, g4⟩ := foldlM_logWrite_gauge _ _ _ hw1
    simp only [Except.ok.injEq, Prod.mk.injEq] at h
    obtain ⟨rfl, _⟩ := h
    simp only [observe] at g1 g2 g3 g4 ⊢
    refine ⟨by omega, g2, g3, ?_⟩
    rw [g4, g1]
    simp [gaugeRecord]

/-- What a sequence of calls adds to the record of the gauge when the gauge is at `g` before
the first of them. -/
theorem runAll_ok (r : runner) (calls : List (ProcResult × List String)) : ∀ (w : World),
    w.logWritable = true →
    ∃ w', r.runAll calls w = .ok w' ∧ w'.processesCurrent = w.processesCurrent
      ∧ w'.logWritable = true
      ∧ w'.gaugeLog = w.gaugeLog
          ++ (calls.map (fun c => gaugeRecord r w.environ c.2 w.processesCurrent)).flatten := by
  induction calls with
  | nil => intro w h; exact ⟨w, rfl, rfl, h, by simp⟩
  | cons c rest ih =>
    intro w h
    obtain ⟨proc, env⟩ := c
    obtain ⟨w', h1, h2, h3, h4⟩ := ih (r.after proc env w) h
    refine ⟨w', ?_, h2, h3, ?_⟩
    · simp only [runner.runAll, run_ok r proc env w h, bind, Except.bind]
      exact h1
    · rw [h4]
      simp [runner.after]

theorem cmdRun_none_iff (proc : ProcResult) :
    cmdRun proc = none ↔ ∃ output, proc = ProcResult.exited output 0 := by
  cases proc with
  | startFailed err => simp [cmdRun]
  | exited output status =>
    cases status with
    | zero => simp [cmdRun]
    | succ n => simp [cmdRun]
  | waitFailed output err => simp [cmdRun]

/-- C9: with the gauge as explicit state, every call of `runner.run` increments the gauge
once, from its value `g` to `g + 1`, before the attempt to spawn, which happens with the
gauge at `g + 1`, and decrements it once, back to `g`, when `cmd.Run()` has returned, whether
the command succeeds, exits non-zero or fails to start; so the gauge after the call equals
the gauge before it, and after any sequence of completed calls the gauge has its initial
value. -/
theorem C9_gauge_restored (r : runner) (proc : ProcResult) (env : List String) (w : World) :
    (w.logWritable = true →
        ∃ w', r.run proc env w = .ok (w', cmdRun proc)
          ∧ w'.processesCurrent = w.processesCurrent
          ∧ w'.trace = w.trace
              ++ [Event.gaugeInc, Event.spawn r.command r.args (w.environ ++ env)]
              ++ proc.output.map (Event.log "debug") ++ [Event.gaugeDec]
          ∧ w'.gaugeLog = w.gaugeLog
              ++ [(Event.gaugeInc, w.processesCurrent + 1),
                  (Event.spawn r.command r.args (w.environ ++ env), w.processesCurrent + 1),
                  (Event.gaugeDec, w.processesCurrent)])
      ∧ (∀ w' err, r.run proc env w = .ok (w', err) →
          w'.processesCurrent = w.processesCurrent
            ∧ w'.gaugeLog = w.gaugeLog
                ++ [(Event.gaugeInc, w.processesCurrent + 1),
                    (Event.spawn r.command r.args (w.environ ++ env), w.processesCurrent + 1),
                    (Event.gaugeDec, w.processesCurrent)])
      ∧ (w.logWritable = true → ∀ calls : List (ProcResult × List String),
          ∃ w', r.runAll calls w = .ok w' ∧ w'.processesCurrent = w.processesCurrent
            ∧ w'.gaugeLog = w.gaugeLog
                ++ (calls.map (fun c =>
                      [(Event.gaugeInc, w.processesCurrent + 1),
                       (Event.spawn r.command r.args (w.environ ++ c.2),
                         w.processesCurrent + 1),
                       (Event.gaugeDec, w.processesCurrent)])).flatten) := by
  refine ⟨fun h => ⟨r.after proc env w, run_ok r proc env w h, rfl, rfl, rfl⟩,
    fun w' err h => ⟨(run_gauge r proc env w w' err h).1,
      (run_gauge r proc env w w' err h).2.2.2⟩, fun h calls => ?_⟩
  obtain ⟨w', h1, h2, _, h4⟩ := runAll_ok r calls w h
  exact ⟨w', h1, h2, h4⟩

/-- C9 for a command that cannot be started, for which the gauge goes from 0 to 1, is at 1
at the attempt to spawn and goes back to 0; three calls in a row included. -/
theorem C9_gauge_restored_witness :
    (∃ w', Config.sample.rnr.run (ProcResult.startFailed "exec: no such file") [] World.init
        = .ok (w', some "exec: no such file")
      ∧ w'.processesCurrent = 0
      ∧ w'.trace = [Event.gaugeInc, Event.spawn "handler" [] [], Event.gaugeDec]
      ∧ w'.gaugeLog
          = [(Event.gaugeInc, 1), (Event.spawn "handler" [] [], 1), (Event.gaugeDec, 0)])
    ∧ ∃ w', Config.sample.rnr.runAll
        [(ProcResult.startFailed "exec: no such file", []), (ProcResult.exited ["out"] 1, []),
         (ProcResult.exited [] 0, [])] World.init = .ok w'
      ∧ w'.processesCurrent = 0
      ∧ w'.gaugeLog
          = [(Event.gaugeInc, 1), (Event.spawn "handler" [] [], 1), (Event.gaugeDec, 0),
             (Event.gaugeInc, 1), (Event.spawn "handler" [] [], 1), (Event.gaugeDec, 0),
             (Event.gaugeInc, 1), (Event.spawn "handler" [] [], 1), (Event.gaugeDec, 0)] :=
  ⟨(C9_gauge_restored Config.sample.rnr (ProcResult.startFailed "exec: no such file") []
      World.init).1 rfl,
   (C9_gauge_restored Config.sample.rnr (ProcResult.startFailed "exec: no such file") []
      World.init).2.2 rfl _⟩

/-! ## The handler -/

theorem handleWebhook_run_failed (cfg : Config) (req : Request) (w : World) (data : String)
    (td : Data) (err : String) (hw : w.logWritable = true) (hread : req.readAll = .ok data)
    (hun : req.unmarshal data = (some td, none))
    (herr : cmdRun (req.proc (amDataToEnv req.sched td)) = some err) :
    ∃ w', handleWebhook cfg req w = .ok w' ∧ Event.httpError err 500 ∈ w'.trace := by
  cases hv : cfg.verbose <;>
    simp [handleWebhook, setLogPath_ok, hw, hread, hun, hv, bind, Except.bind, pure,
      Except.pure, run_ok, logCall, herr, handleError_ok, runner.after, withLabelValues]

theorem handleWebhook_decode_failed (cfg : Config) (req : Request) (w : World) (data : String)
    (td : Data) (err : String) (hw : w.logWritable = true) (hread : req.readAll = .ok data)
    (hun : req.unmarshal data = (some td, some err)) :
    ∃ w', handleWebhook cfg req w = .ok w'
      ∧ Event.httpError err 500 ∈ w'.trace
      ∧ Event.spawn cfg.rnr.command cfg.rnr.args (w.environ ++ amDataToEnv req.sched td)
          ∈ w'.trace := by
  cases hv : cfg.verbose <;>
    cases hc : cmdRun (req.proc (amDataToEnv req.sched td)) <;>
    simp [handleWebhook, setLogPath_ok, hw, hread, hun, hv, bind, Except.bind, pure,
      Except.pure, run_ok, logCall, hc, handleError_ok, runner.after, withLabelValues]

theorem withLabelValues_errTotal (stage : String) (w : World) :
    (withLabelValues stage w).errTotal = w.errTotal := by
  unfold withLabelValues World.errTotal
  by_cases h : stage ∈ w.errCounter.map Prod.fst <;> simp [h]

/-- No request changes the sum of the error counters: `errCounter` is never incremented. -/
theorem handleWebhook_errTotal (cfg : Config) (req : Request) (w w' : World)
    (h : handleWebhook cfg req w = .ok w') : w'.errTotal = w.errTotal := by
  by_cases hw : w.logWritable = true
  swap
  · simp [handleWebhook, setLogPath, hw, bind, Except.bind] at h
  · cases hread : req.readAll with
    | error err =>
      cases hv : cfg.verbose <;>
        simp [handleWebhook, setLogPath_ok, hw, hread, hv, bind, Except.bind, pure,
          Except.pure, logCall, handleError_ok] at h <;>
        subst h <;> exact withLabelValues_errTotal _ _
    | ok data =>
      rcases hun : req.unmarshal data with ⟨payload, uerr⟩
      cases payload with
      | none =>
        cases hv : cfg.verbose <;> cases uerr <;>
          simp [handleWebhook, setLogPath_ok, hw, hread, hun, hv, bind, Except.bind, pure,
            Except.pure, logCall, handleError_ok, withLabelValues] at h
      | some td =>
        have hwl : ∀ (stage : String) (v : World),
            (withLabelValues stage v).logWritable = v.logWritable := fun _ _ => rfl
        cases hv : cfg.verbose <;> cases uerr <;>
          cases hc : cmdRun (req.proc (amDataToEnv req.sched td)) <;>
          simp [handleWebhook, setLogPath_ok, hw, hread, hun, hv, bind, Except.bind, pure,
            Except.pure, run_ok, logCall, hc, handleError_ok, runner.after, hwl] at h <;>
          subst h <;>
          simp only [World.errTotal, withLabelValues] <;>
          split_ifs <;> simp

/-- C6 fails on the code: a request whose body `not json` cannot be decoded is answered
with a failure, and then `handleWebhook` goes on and calls `rnr.run`: the trace of the
request holds the attempt to spawn the command, with the environment of the empty payload. -/
theorem C6_undecodable_body_reaches_runner :
    traceOf (handleWebhook Config.sample Request.undecodable World.init)
      = some
        [Event.httpError "invalid character 'o' in literal null (expecting 'u')" 500,
         Event.log "error" "invalid character 'o' in literal null (expecting 'u')",
         Event.counterChild "unmarshal",
         Event.gaugeInc,
         Event.spawn "handler" []
           ["AMX_RECEIVER=", "AMX_STATUS=", "AMX_EXTERNAL_URL=", "AMX_ALERT_LEN=0"],
         Event.gaugeDec] := by
  decide

/-- C7, as the code has it: `runner.run` returns no error exactly when the command starts
and exits with status zero; when the command starts and terminates with a non-zero exit
status, `runner.run` returns the error of `cmd.Run()`, and `handleWebhook` answers the
request with `http.Error` and status 500. -/
theorem C7_nonzero_exit_is_error (cfg : Config) (req : Request) (w : World) (data : String)
    (td : Data) (output : List String) (n : Nat) (hw : w.logWritable = true)
    (hread : req.readAll = .ok data) (hun : req.unmarshal data = (some td, none))
    (hproc : req.proc (amDataToEnv req.sched td) = ProcResult.exited output (n + 1)) :
    (∀ env, ∃ w', cfg.rnr.run (ProcResult.exited output (n + 1)) env w
        = .ok (w', some ("exit status " ++ Nat.repr (n + 1))))
      ∧ (∃ w', handleWebhook cfg req w = .ok w'
          ∧ Event.httpError ("exit status " ++ Nat.repr (n + 1)) 500 ∈ w'.trace)
      ∧ (∀ proc env, (∃ w', cfg.rnr.run proc env w = .ok (w', none))
          ↔ ∃ out, proc = ProcResult.exited out 0) := by
  refine ⟨fun env => ⟨_, run_ok cfg.rnr _ env w hw⟩, ?_, fun proc env => ?_⟩
  · exact handleWebhook_run_failed cfg req w data td _ hw hread hun (by rw [hproc]; rfl)
  · rw [run_ok cfg.rnr proc env w hw, ← cmdRun_none_iff]
    constructor
    · rintro ⟨w', h⟩
      simp only [Except.ok.injEq, Prod.mk.injEq] at h
      exact h.2
    · intro h
      exact ⟨_, by rw [h]⟩

/-- C7 for the example group and a handler that exits with status 1. -/
theorem C7_nonzero_exit_is_error_witness :
    ∃ w', handleWebhook Config.sample (Request.good (ProcResult.exited [] 1)) World.init = .ok w'
      ∧ Event.httpError ("exit status " ++ Nat.repr 1) 500 ∈ w'.trace :=
  (C7_nonzero_exit_is_error Config.sample (Request.good (ProcResult.exited [] 1)) World.init
    "" exampleGroup [] 0 rfl rfl rfl rfl).2.1

/-- C7 fails as stated: for a command that exits with status 1, `runner.run` returns the
error `exit status 1`, and `handleWebhook` answers the request with status 500. -/
theorem C7_exit_status_counterexample :
    returnedError (Config.sample.rnr.run (ProcResult.exited [] 1) [] World.init)
        = some (some "exit status 1")
      ∧ traceOf (handleWebhook Config.sample (Request.good (ProcResult.exited [] 1)) World.init)
        = some
          [Event.gaugeInc,
           Event.spawn "handler" []
             ["AMX_RECEIVER=team-x", "AMX_STATUS=firing", "AMX_EXTERNAL_URL=", "AMX_ALERT_LEN=1",
              "AMX_ALERT_1_STATUS=firing", "AMX_ALERT_1_START=0", "AMX_ALERT_1_END=0",
              "AMX_ALERT_1_URL=", "AMX_ALERT_1_LABEL_severity=critical"],
           Event.gaugeDec,
           Event.httpError "exit status 1" 500,
           Event.log "error" "exit status 1",
           Event.counterChild "start"] := by
  decide

/-- C8 fails on the code: when reading the body fails, when decoding fails and when the
command cannot be started, the handler only looks up the child of `errCounter` (under the
labels `read`, `unmarshal` and `start`) and never increments it: every counter is 0 after
the request, as before it. -/
theorem C8_error_counter_not_incremented :
    countersOf (handleWebhook Config.sample Request.unreadable World.init)
        = some [("read", 0)]
      ∧ countersOf (handleWebhook Config.sample Request.undecodable World.init)
        = some [("unmarshal", 0)]
      ∧ countersOf (handleWebhook Config.sample
            (Request.good (ProcResult.startFailed "exec: no such file")) World.init)
        = some [("start", 0)]
      ∧ World.init.errTotal = 0 :=
  ⟨by decide, by decide, by decide, by decide⟩

end AmExecutor
